import Mathlib

/-!
Verification of the `openedx_tagging` core domain model
(`openedx_tagging/core/tagging/models.py` and `api.py`).

The Python/Django models are shallowly embedded: database rows become
structures, the database becomes explicit lists of rows threaded through the
operations, and Django query sets become list filters.  Auto-increment
primary keys are modelled by `nextTagId` / `nextObjectTagId` counters; a
freshly constructed, unsaved row carries id `0` (Python `None` pk), matching
Python truthiness where an id of `None`/`0` is falsy.
-/

/-- Which polymorphic taxonomy subclass governs a `Taxonomy` row
(`Taxonomy._taxonomy_class` resolved through `cast()`).
`base` is the plain `Taxonomy`, `system` is `SystemDefinedTaxonomy`,
`modelBacked` is `ModelSystemDefinedTaxonomy` (with its external
instance store, e.g. `UserSystemDefinedTaxonomy`). -/
inductive Variant where
  | base
  | system
  | modelBacked
deriving DecidableEq, Repr

/-- A row of the `Tag` model: one vocabulary entry of a taxonomy. -/
structure Tag where
  id : Nat
  taxonomyId : Option Nat
  parentId : Option Nat
  value : String
  externalId : Option String
deriving DecidableEq, Repr

/-- A row of the `Taxonomy` model: a namespace with tagging rules. -/
structure Taxonomy where
  id : Nat
  name : String
  enabled : Bool
  required : Bool
  allowMultiple : Bool
  allowFreeText : Bool
  systemDefined : Bool
  variant : Variant
deriving DecidableEq, Repr

/-- A row of the `ObjectTag` model: the association between a tag and an
object, with the shadow fields `_name`/`_value` that cache the display
strings (written here `sName`/`sValue`). -/
structure ObjectTag where
  id : Nat
  objectId : String
  objectType : String
  taxonomyId : Option Nat
  tagId : Option Nat
  sName : String
  sValue : String
deriving DecidableEq, Repr

/-- An instance of the external model backing a `ModelSystemDefinedTaxonomy`
(e.g. one row of the user model): a primary key and the human readable
display string read off the instance (`_get_value_from_instance`). -/
structure ExternalInstance where
  pk : String
  display : String
deriving DecidableEq, Repr

/-- The database: all rows of the three tagging models plus the external
instance store, with auto-increment counters for the two tables that
the tagging core inserts into. -/
structure DB where
  taxonomies : List Taxonomy
  tags : List Tag
  objectTags : List ObjectTag
  instances : List ExternalInstance
  nextTagId : Nat
  nextObjectTagId : Nat
deriving DecidableEq, Repr

/-- A reference to a tag as supplied to `tag_object`: either an existing
`Tag` id (closed taxonomies) or a free-text value / external id (strings).
Python compares these with `==` where an `int` never equals a `str`. -/
inductive TagRef where
  | byId (n : Nat)
  | byValue (s : String)
deriving DecidableEq, Repr

/-- Python truthiness of a nullable integer primary key:
`None` and `0` are falsy. -/
def truthy : Option Nat → Bool
  | none => false
  | some n => n != 0

/-- Look up a `Taxonomy` row by id (Django FK dereference). -/
def findTaxonomy (db : DB) (i : Nat) : Option Taxonomy :=
  db.taxonomies.find? (fun tx => tx.id == i)

/-- Look up a `Tag` row by id (Django FK dereference). -/
def findTag (db : DB) (i : Nat) : Option Tag :=
  db.tags.find? (fun t => t.id == i)

/-- The `Taxonomy` object behind `object_tag.taxonomy`, as guarded by Python
truthiness of `taxonomy_id` (`None` when the link is falsy). -/
def otTaxonomy (db : DB) (ot : ObjectTag) : Option Taxonomy :=
  match ot.taxonomyId with
  | none => none
  | some i => if i == 0 then none else findTaxonomy db i

/-- The `Tag` object behind `object_tag.tag`, guarded by truthiness of
`tag_id`. -/
def otTag (db : DB) (ot : ObjectTag) : Option Tag :=
  match ot.tagId with
  | none => none
  | some i => if i == 0 then none else findTag db i

/-- `ObjectTag.name` property: `taxonomy.name` if the taxonomy link is
truthy, else the shadow `_name`. -/
def otName (db : DB) (ot : ObjectTag) : String :=
  if truthy ot.taxonomyId then
    match otTaxonomy db ot with
    | some tx => tx.name
    | none => ot.sName
  else ot.sName

/-- `ObjectTag.value` property: `tag.value` if the tag link is truthy,
else the shadow `_value`. -/
def otValue (db : DB) (ot : ObjectTag) : String :=
  if truthy ot.tagId then
    match otTag db ot with
    | some t => t.value
    | none => ot.sValue
  else ot.sValue

/-- `ObjectTag.tag_ref` property: the linked tag's id if the tag link is
truthy, else the shadow `_value`. -/
def otTagRef (ot : ObjectTag) : TagRef :=
  match ot.tagId with
  | some g => if g == 0 then TagRef.byValue ot.sValue else TagRef.byId g
  | none => TagRef.byValue ot.sValue

/-- `Taxonomy._check_taxonomy`, including the `SystemDefinedTaxonomy`
override (which additionally requires the taxonomy to be flagged
`system_defined`); `ModelSystemDefinedTaxonomy` inherits that override. -/
def checkTaxonomy (tx : Taxonomy) (ot : ObjectTag) : Bool :=
  (truthy ot.taxonomyId && ot.taxonomyId == some tx.id)
    && (match tx.variant with
        | Variant.base => true
        | _ => tx.systemDefined)

/-- `ModelSystemDefinedTaxonomy._check_instance`: the linked tag's
`external_id` must identify an existing external instance. -/
def checkInstance (db : DB) (ot : ObjectTag) : Bool :=
  match otTag db ot with
  | some t =>
    match t.externalId with
    | some e => db.instances.any (fun i => i.pk == e)
    | none => false
  | none => false

/-- `Taxonomy._check_tag` with the `ModelSystemDefinedTaxonomy` override:
free-text taxonomies only need a non-empty value; closed taxonomies need a
linked tag belonging to this taxonomy; model-backed taxonomies additionally
need the backing external instance to exist. -/
def checkTag (db : DB) (tx : Taxonomy) (ot : ObjectTag) : Bool :=
  let base :=
    if tx.allowFreeText then otValue db ot != ""
    else
      truthy ot.tagId
        && ((otTag db ot).map (fun t => t.taxonomyId == some tx.id)).getD false
  match tx.variant with
  | Variant.modelBacked => base && checkInstance db ot
  | _ => base

/-- `Taxonomy._check_object`: the object id must be non-empty. -/
def checkObject (ot : ObjectTag) : Bool :=
  ot.objectId != ""

/-- `Taxonomy.validate_object_tag` with all three checks enabled,
dispatched through the subclass overrides recorded in `variant`. -/
def validateObjectTag (db : DB) (tx : Taxonomy) (ot : ObjectTag) : Bool :=
  checkTaxonomy tx ot && checkTag db tx ot && checkObject ot

/-- `ObjectTag.is_valid`: requires a truthy taxonomy link whose row
validates this object tag. -/
def isValid (db : DB) (ot : ObjectTag) : Bool :=
  truthy ot.taxonomyId
    && (match otTaxonomy db ot with
        | some tx => validateObjectTag db tx ot
        | none => false)

/-- `TAXONOMY_MAX_DEPTH` from `models.py`. -/
def TAXONOMY_MAX_DEPTH : Nat := 3

/-- The loop body of `Tag.get_lineage`: walk the parent chain upward for at
most `depth` steps, prepending each visited value (`lineage.insert(0, …)`). -/
def getLineageAux (db : DB) : Option Tag → Nat → List String → List String
  | _, 0, acc => acc
  | none, _, acc => acc
  | some t, Nat.succ d, acc =>
    getLineageAux db (t.parentId.bind (findTag db)) d (t.value :: acc)

/-- `Tag.get_lineage`: the values of the tag and its ancestors, oldest
first, capped at `TAXONOMY_MAX_DEPTH` entries. -/
def getLineage (db : DB) (t : Tag) : List String :=
  getLineageAux db (some t) TAXONOMY_MAX_DEPTH []

/-- The value of a tag's parent (`order_by("parent__value", …)` join);
`none` for root tags. -/
def tagParentValue (db : DB) (t : Tag) : Option String :=
  (t.parentId.bind (findTag db)).map Tag.value

/-- Strict lexicographic comparison of character lists by code point:
the ordering the backing store applies to text columns. -/
def charListLtB : List Char → List Char → Bool
  | [], [] => false
  | [], _ :: _ => true
  | _ :: _, [] => false
  | c :: cs, d :: ds =>
    if c.toNat < d.toNat then true
    else if d.toNat < c.toNat then false
    else charListLtB cs ds

/-- Strict string comparison on the underlying characters. -/
def strLtB (a b : String) : Bool :=
  charListLtB a.data b.data

/-- Comparison of nullable strings: SQL sorts `NULL` first ascending. -/
def optStrLtB : Option String → Option String → Bool
  | none, none => false
  | none, some _ => true
  | some _, none => false
  | some a, some b => strLtB a b

/-- The ordering used inside each level of `get_tags`:
`order_by("parent__value", "value", "id")`. -/
def tagLeB (db : DB) (a b : Tag) : Bool :=
  optStrLtB (tagParentValue db a) (tagParentValue db b)
    || (tagParentValue db a == tagParentValue db b
        && (strLtB a.value b.value
            || (a.value == b.value && decide (a.id ≤ b.id))))

/-- The level ordering of `get_tags` as a relation. -/
def tagLe (db : DB) (a b : Tag) : Prop :=
  tagLeB db a b = true

instance (db : DB) : DecidableRel (tagLe db) := fun a b =>
  inferInstanceAs (Decidable (tagLeB db a b = true))

theorem charListLtB_trans :
    ∀ a b c, charListLtB a b = true → charListLtB b c = true →
      charListLtB a c = true := by
  intro a
  induction a with
  | nil =>
    intro b c h1 h2
    cases b with
    | nil => exact h2
    | cons d ds =>
      cases c with
      | nil => simp [charListLtB] at h2
      | cons e es => rfl
  | cons x xs ih =>
    intro b c h1 h2
    cases b with
    | nil => simp [charListLtB] at h1
    | cons d ds =>
      cases c with
      | nil => simp [charListLtB] at h2
      | cons e es =>
        simp only [charListLtB] at h1 h2 ⊢
        have h1s : x.toNat < d.toNat ∨ (x.toNat = d.toNat ∧ charListLtB xs ds = true) := by
          by_cases hxd : x.toNat < d.toNat
          · exact Or.inl hxd
          · by_cases hdx : d.toNat < x.toNat
            · rw [if_neg hxd, if_pos hdx] at h1
              cases h1
            · rw [if_neg hxd, if_neg hdx] at h1
              exact Or.inr ⟨by omega, h1⟩
        have h2s : d.toNat < e.toNat ∨ (d.toNat = e.toNat ∧ charListLtB ds es = true) := by
          by_cases hde : d.toNat < e.toNat
          · exact Or.inl hde
          · by_cases hed : e.toNat < d.toNat
            · rw [if_neg hde, if_pos hed] at h2
              cases h2
            · rw [if_neg hde, if_neg hed] at h2
              exact Or.inr ⟨by omega, h2⟩
        rcases h1s with h1s | ⟨h1e, h1r⟩ <;> rcases h2s with h2s | ⟨h2e, h2r⟩
        · rw [if_pos (by omega)]
        · rw [if_pos (by omega)]
        · rw [if_pos (by omega)]
        · rw [if_neg (by omega), if_neg (by omega)]
          exact ih ds es h1r h2r

theorem charListLtB_connex :
    ∀ a b, charListLtB a b = false → charListLtB b a = false → a = b := by
  intro a
  induction a with
  | nil =>
    intro b h1 _
    cases b with
    | nil => rfl
    | cons d ds => simp [charListLtB] at h1
  | cons x xs ih =>
    intro b h1 h2
    cases b with
    | nil => simp [charListLtB] at h2
    | cons d ds =>
      simp only [charListLtB] at h1 h2
      by_cases hxd : x.toNat < d.toNat
      · simp [hxd] at h1
      · by_cases hdx : d.toNat < x.toNat
        · simp [hxd, hdx] at h2
        · have hnat : x.toNat = d.toNat := by omega
          have hchar : x = d := Char.eq_of_val_eq (UInt32.ext hnat)
          rw [if_neg hxd, if_neg hdx] at h1
          rw [if_neg hdx, if_neg hxd] at h2
          rw [hchar, ih ds h1 h2]

theorem strLtB_trans (a b c : String) (h1 : strLtB a b = true)
    (h2 : strLtB b c = true) : strLtB a c = true :=
  charListLtB_trans a.data b.data c.data h1 h2

theorem strLtB_connex (a b : String) (h1 : strLtB a b = false)
    (h2 : strLtB b a = false) : a = b := by
  cases a with
  | mk la =>
    cases b with
    | mk lb =>
      have : la = lb := charListLtB_connex la lb h1 h2
      rw [this]

theorem optStrLtB_trans (a b c : Option String) (h1 : optStrLtB a b = true)
    (h2 : optStrLtB b c = true) : optStrLtB a c = true := by
  cases a <;> cases b <;> cases c <;> simp_all [optStrLtB]
  exact strLtB_trans _ _ _ h1 h2

theorem optStrLtB_connex (a b : Option String) (h1 : optStrLtB a b = false)
    (h2 : optStrLtB b a = false) : a = b := by
  cases a <;> cases b <;> simp_all [optStrLtB]
  exact strLtB_connex _ _ h1 h2

theorem tagLe_total (db : DB) (a b : Tag) : tagLe db a b ∨ tagLe db b a := by
  unfold tagLe tagLeB
  rcases h1 : optStrLtB (tagParentValue db a) (tagParentValue db b) with _ | _
  · rcases h2 : optStrLtB (tagParentValue db b) (tagParentValue db a) with _ | _
    · have hpe : tagParentValue db a = tagParentValue db b :=
        optStrLtB_connex _ _ h1 h2
      rcases h3 : strLtB a.value b.value with _ | _
      · rcases h4 : strLtB b.value a.value with _ | _
        · have hve : a.value = b.value := strLtB_connex _ _ h3 h4
          rcases Nat.le_total a.id b.id with h5 | h5
          · left; simp [hpe, hve, h5]
          · right; simp [hpe, hve, h5]
        · right; simp [hpe, h4]
      · left; simp [hpe, h3]
    · right; simp [h2]
  · left; simp [h1]

theorem tagLe_trans (db : DB) (a b c : Tag) (h1 : tagLe db a b)
    (h2 : tagLe db b c) : tagLe db a c := by
  unfold tagLe tagLeB at h1 h2 ⊢
  simp only [Bool.or_eq_true, Bool.and_eq_true, beq_iff_eq, decide_eq_true_eq] at h1 h2 ⊢
  rcases h1 with h1 | ⟨h1e, h1r⟩
  · rcases h2 with h2 | ⟨h2e, h2r⟩
    · exact Or.inl (optStrLtB_trans _ _ _ h1 h2)
    · exact Or.inl (h2e ▸ h1)
  · rcases h2 with h2 | ⟨h2e, h2r⟩
    · exact Or.inl (h1e ▸ h2)
    · refine Or.inr ⟨h1e.trans h2e, ?_⟩
      rcases h1r with h1r | ⟨h1v, h1i⟩
      · rcases h2r with h2r | ⟨h2v, h2i⟩
        · exact Or.inl (strLtB_trans _ _ _ h1r h2r)
        · exact Or.inl (h2v ▸ h1r)
      · rcases h2r with h2r | ⟨h2v, h2i⟩
        · exact Or.inl (h1v ▸ h2r)
        · exact Or.inr ⟨h1v.trans h2v, Nat.le_trans h1i h2i⟩

instance (db : DB) : IsTotal Tag (tagLe db) :=
  ⟨tagLe_total db⟩

instance (db : DB) : IsTrans Tag (tagLe db) :=
  ⟨fun a b c => tagLe_trans db a b c⟩

/-- One iteration of the `get_tags` loop: the taxonomy's tags restricted to
the requested parents (roots when `parents = none`), in the deterministic
`(parent value, value, id)` order. -/
def tagsAtLevel (db : DB) (tx : Taxonomy) (parents : Option (List Tag)) : List Tag :=
  let base := db.tags.filter (fun t => t.taxonomyId == some tx.id)
  let filtered :=
    match parents with
    | none => base.filter (fun t => t.parentId == none)
    | some ps => base.filter (fun t => ps.any (fun p => t.parentId == some p.id))
  List.insertionSort (tagLe db) filtered

/-- The level-by-level loop of `Taxonomy.get_tags`, producing each level's
tags annotated with their depth; stops when a level is empty or after
`fuel` levels. -/
def getTagsLevelsAux (db : DB) (tx : Taxonomy) :
    Nat → Nat → Option (List Tag) → List (List (Tag × Nat))
  | 0, _, _ => []
  | Nat.succ n, depth, parents =>
    let level := tagsAtLevel db tx parents
    if level.isEmpty then []
    else (level.map (fun t => (t, depth))) :: getTagsLevelsAux db tx n (depth + 1) (some level)

/-- The levels traversed by `Taxonomy.get_tags` (empty for free-text
taxonomies). -/
def getTagsLevels (db : DB) (tx : Taxonomy) : List (List (Tag × Nat)) :=
  if tx.allowFreeText then [] else getTagsLevelsAux db tx TAXONOMY_MAX_DEPTH 0 none

/-- `Taxonomy.get_tags`: all levels concatenated, each tag annotated with
its depth. -/
def getTags (db : DB) (tx : Taxonomy) : List (Tag × Nat) :=
  (getTagsLevels db tx).flatten

/-- The candidate ordering of `resync`\'s relinking search:
`order_by("allow_free_text", "id")` (`false < true`). -/
def taxonomyLeB (a b : Taxonomy) : Bool :=
  (!a.allowFreeText && b.allowFreeText)
    || (a.allowFreeText == b.allowFreeText && decide (a.id ≤ b.id))

/-- The relinking candidate ordering as a relation. -/
def taxonomyLe (a b : Taxonomy) : Prop :=
  taxonomyLeB a b = true

instance : DecidableRel taxonomyLe := fun a b =>
  inferInstanceAs (Decidable (taxonomyLeB a b = true))

instance : IsTotal Taxonomy taxonomyLe := by
  refine ⟨fun a b => ?_⟩
  unfold taxonomyLe taxonomyLeB
  rcases a.allowFreeText <;> rcases b.allowFreeText <;>
    rcases Nat.le_total a.id b.id with h | h <;> simp_all

instance : IsTrans Taxonomy taxonomyLe := by
  refine ⟨fun a b c h1 h2 => ?_⟩
  unfold taxonomyLe taxonomyLeB at h1 h2 ⊢
  simp only [Bool.or_eq_true, Bool.and_eq_true, Bool.not_eq_true', beq_iff_eq,
    decide_eq_true_eq] at h1 h2 ⊢
  rcases h1 with ⟨h1a, h1b⟩ | ⟨h1e, h1i⟩
  · rcases h2 with ⟨h2a, h2b⟩ | ⟨h2e, h2i⟩
    · rw [h1b] at h2a
      cases h2a
    · exact Or.inl ⟨h1a, h2e ▸ h1b⟩
  · rcases h2 with ⟨h2a, h2b⟩ | ⟨h2e, h2i⟩
    · exact Or.inl ⟨h1e.trans h2a, h2b⟩
    · exact Or.inr ⟨h1e.trans h2e, Nat.le_trans h1i h2i⟩

/-- The candidates tried by `resync`'s taxonomy relinking:
`Taxonomy.objects.filter(name=self.name, enabled=True).order_by("allow_free_text", "id")`. -/
def resyncCandidates (db : DB) (ot : ObjectTag) : List Taxonomy :=
  List.insertionSort taxonomyLe
    (db.taxonomies.filter (fun tx => tx.name == otName db ot && tx.enabled))

/-- `taxonomy.tag_set.filter(value=v).first()`. -/
def findTagByValue (db : DB) (tx : Taxonomy) (v : String) : Option Tag :=
  (db.tags.filter (fun t => t.taxonomyId == some tx.id && t.value == v)).head?

/-- The candidate loop of `resync`'s taxonomy relinking: tentatively link
each candidate taxonomy (and a tag of it matching the shadow value, when
one exists), keep the first one accepted by `validate_object_tag`, and undo
the tentative links (reset both to null) before trying the next. -/
def relinkLoop (db : DB) (ot : ObjectTag) : List Taxonomy → ObjectTag × Bool
  | [] => (ot, false)
  | tx :: rest =>
    let tg := findTagByValue db tx (otValue db ot)
    let cand := {ot with taxonomyId := some tx.id, tagId := tg.map Tag.id}
    if validateObjectTag db tx cand then (cand, true)
    else relinkLoop db {ot with taxonomyId := none, tagId := none} rest

/-- Step 1 of `resync`: when the taxonomy link is falsy, adopt the linked
tag's taxonomy if a tag is linked, else run the relinking search. -/
def resyncPhase1 (db : DB) (ot : ObjectTag) : ObjectTag × Bool :=
  if truthy ot.taxonomyId then (ot, false)
  else if truthy ot.tagId then
    ({ot with taxonomyId := (otTag db ot).bind Tag.taxonomyId}, true)
  else relinkLoop db ot (resyncCandidates db ot)

/-- Step 2 of `resync`: sync the shadow `_name` from the linked taxonomy. -/
def resyncPhase2 (db : DB) (ot : ObjectTag) : ObjectTag × Bool :=
  if truthy ot.taxonomyId then
    match otTaxonomy db ot with
    | some tx =>
      if ot.sName != tx.name then ({ot with sName := tx.name}, true) else (ot, false)
    | none => (ot, false)
  else (ot, false)

/-- Step 4 of `resync` (the `elif`): sync the shadow `_value` from the
linked tag. -/
def resyncPhase4 (db : DB) (ot : ObjectTag) : ObjectTag × Bool :=
  match otTag db ot with
  | some tg =>
    if ot.sValue != tg.value then ({ot with sValue := tg.value}, true) else (ot, false)
  | none => (ot, false)

/-- Steps 3/4 of `resync`: when linked to a non-free-text taxonomy with no
linked tag, search that taxonomy for a tag matching the shadow value;
otherwise (`elif`) sync the shadow `_value` from the linked tag. -/
def resyncPhase34 (db : DB) (ot : ObjectTag) : ObjectTag × Bool :=
  match otTaxonomy db ot with
  | some tx =>
    if !tx.allowFreeText && !truthy ot.tagId then
      match findTagByValue db tx (otValue db ot) with
      | some tg => ({ot with tagId := some tg.id}, true)
      | none => (ot, false)
    else resyncPhase4 db ot
  | none => resyncPhase4 db ot

/-- `ObjectTag.resync`: the four repair steps in order; returns the updated
object tag and whether anything was reported changed. -/
def resync (db : DB) (ot : ObjectTag) : ObjectTag × Bool :=
  let p1 := resyncPhase1 db ot
  let p2 := resyncPhase2 db p1.1
  let p34 := resyncPhase34 db p2.1
  (p34.1, p1.2 || p2.2 || p34.2)

/-- The string stored when a reference is written into the `_value` shadow
(Django coerces an `int` id to text when it lands in the `CharField`). -/
def refValue : TagRef → String
  | TagRef.byId n => toString n
  | TagRef.byValue s => s

/-- Python `int(...)` on a plain decimal numeral, `none` when `int` would
raise `ValueError`: a non-empty all-digit string is read as a base-10
number.  The signed / whitespace-padded / underscore-grouped spellings
`int` also accepts are not modelled (a negative never matches a pk
anyway). -/
def strToNat? (s : String) : Option Nat :=
  if !s.data.isEmpty && s.data.all (fun c => c.isDigit) then
    some (s.data.foldl (fun n c => n * 10 + (c.toNat - 48)) 0)
  else none

/-- The primary key that Django's `tag_set.get(id=tag_ref)` looks up: an
`int` reference is used as is, while a `str` reference is first coerced
with `int(...)` (`IntegerField.to_python`), which accepts a decimal
numeral — so a string of digits matches the tag with that pk — and raises
`ValueError` otherwise. -/
def refId : TagRef → Option Nat
  | TagRef.byId n => some n
  | TagRef.byValue s => strToNat? s

/-- The `try` block of `Taxonomy._set_tag` (base):
`object_tag.tag = self.tag_set.get(id=tag_ref)` links the tag, with the
string-to-pk coercion of `refId`; on `ValueError` (non-numeric string) or
`DoesNotExist` the reference is stored as the value
(`object_tag.value = tag_ref` writes the `_value` shadow). -/
def setTagLink (db : DB) (tx : Taxonomy) (r : TagRef) (ot : ObjectTag) : ObjectTag :=
  match refId r with
  | some n =>
    match db.tags.find? (fun t => t.taxonomyId == some tx.id && t.id == n) with
    | some tg => {ot with tagId := some tg.id}
    | none => {ot with sValue := refValue r}
  | none => {ot with sValue := refValue r}

/-- `Taxonomy._set_tag` (base): link or store the reference, then resync. -/
def setTagBase (db : DB) (tx : Taxonomy) (r : TagRef) (ot : ObjectTag) : ObjectTag :=
  (resync db (setTagLink db tx r ot)).1

/-- Replace a `Tag` row in place (`tag.save()` on an existing row). -/
def saveTagUpdate (db : DB) (tg : Tag) : DB :=
  {db with tags := db.tags.map (fun t => if t.id == tg.id then tg else t)}

/-- `ModelSystemDefinedTaxonomy._resync_tag`: re-read the external instance
behind the tag's `external_id` and repair the tag's value if it drifted. -/
def resyncTag (db : DB) (tg : Tag) : DB × Tag :=
  match tg.externalId.bind (fun e => db.instances.find? (fun i => i.pk == e)) with
  | none => (db, tg)
  | some inst =>
    if tg.value != inst.display then
      let tg1 := {tg with value := inst.display}
      (saveTagUpdate db tg1, tg1)
    else (db, tg)

/-- `ModelSystemDefinedTaxonomy._set_tag`: resolve-or-create.  An existing
tag with matching `external_id` is resynced and linked; otherwise a new tag
is materialized from the external instance (`None` — i.e. failure — when
the instance does not exist).  `get()` finding several matches raises
(uncaught), aborting `tag_object` before any ObjectTag persistence;
modelled as the same failure outcome. -/
def setTagModel (db : DB) (tx : Taxonomy) (r : TagRef) (ot : ObjectTag) :
    DB × Option ObjectTag :=
  match db.tags.filter (fun t => t.taxonomyId == some tx.id && t.externalId == some (refValue r)) with
  | [tg] =>
    let s := resyncTag db tg
    (s.1, some {ot with tagId := some s.2.id})
  | [] =>
    match db.instances.find? (fun i => i.pk == refValue r) with
    | none => (db, none)
    | some inst =>
      let newTag : Tag :=
        { id := db.nextTagId, taxonomyId := some tx.id, parentId := none,
          value := inst.display, externalId := some inst.pk }
      ({db with tags := db.tags ++ [newTag], nextTagId := db.nextTagId + 1},
       some {ot with tagId := some newTag.id})
  | _ => (db, none)

/-- The `_set_tag` strategy selected by the taxonomy's subclass. -/
def setTag (db : DB) (tx : Taxonomy) (r : TagRef) (ot : ObjectTag) :
    DB × Option ObjectTag :=
  match tx.variant with
  | Variant.modelBacked => setTagModel db tx r ot
  | _ => (db, some (setTagBase db tx r ot))

/-- Python `dict` insertion: replace the value of an existing key in place,
else append. -/
def dictInsert (l : List (TagRef × ObjectTag)) (k : TagRef) (v : ObjectTag) :
    List (TagRef × ObjectTag) :=
  if l.any (fun p => p.1 == k) then l.map (fun p => if p.1 == k then (k, v) else p)
  else l ++ [(k, v)]

/-- The dict comprehension `{tag.tag_ref: tag for tag in …}` of
`tag_object`. -/
def buildDict (ots : List ObjectTag) : List (TagRef × ObjectTag) :=
  ots.foldl (fun d ot => dictInsert d (otTagRef ot) ot) []

/-- `current_tags.pop(tag_ref)`: the stored entry for the key, if any, and
the dict without it. -/
def dictPop (l : List (TagRef × ObjectTag)) (k : TagRef) :
    Option (ObjectTag × List (TagRef × ObjectTag)) :=
  match l.find? (fun p => p.1 == k) with
  | some p => some (p.2, l.filter (fun q => q.1 != k))
  | none => none

/-- `ObjectTag(taxonomy=self, object_id=object_id)`: a fresh unsaved row. -/
def freshObjectTag (tx : Taxonomy) (objectId : String) : ObjectTag :=
  { id := 0, objectId := objectId, objectType := "", taxonomyId := some tx.id,
    tagId := none, sName := "", sValue := "" }

/-- `object_tag.save()`: insert with a fresh auto-increment id when unsaved,
else update the row in place. -/
def saveObjectTag (db : DB) (ot : ObjectTag) : DB × ObjectTag :=
  if ot.id == 0 then
    let saved := {ot with id := db.nextObjectTagId}
    ({db with objectTags := db.objectTags ++ [saved],
              nextObjectTagId := db.nextObjectTagId + 1}, saved)
  else
    ({db with objectTags := db.objectTags.map (fun x => if x.id == ot.id then ot else x)}, ot)

/-- `object_tag.delete()`. -/
def deleteObjectTag (db : DB) (ot : ObjectTag) : DB :=
  {db with objectTags := db.objectTags.filter (fun x => x.id != ot.id)}

/-- The validation loop of `Taxonomy.tag_object`: for each reference in
order, reuse the existing object tag with that `tag_ref` (popping it from
the to-delete dict) or construct a fresh one, run `_set_tag`, and require
`validate_object_tag` — raising (`Except.error`) otherwise.  No ObjectTag
is persisted here; only model-backed `_set_tag` may write `Tag` rows. -/
def tagObjectLoop (tx : Taxonomy) (objectId : String) :
    List TagRef → DB → List (TagRef × ObjectTag) → List ObjectTag →
    DB × List (TagRef × ObjectTag) × Except String (List ObjectTag)
  | [], db, cur, acc => (db, cur, Except.ok acc)
  | r :: rs, db, cur, acc =>
    let p := match dictPop cur r with
      | some q => q
      | none => (freshObjectTag tx objectId, cur)
    match setTag db tx r p.1 with
    | (db1, none) => (db1, p.2, Except.error "invalid object tag")
    | (db1, some ot1) =>
      if validateObjectTag db1 tx ot1 then tagObjectLoop tx objectId rs db1 p.2 (acc ++ [ot1])
      else (db1, p.2, Except.error "invalid object tag")

/-- The commit phase of `tag_object`: save every updated tag, in order. -/
def saveAll (db : DB) (ots : List ObjectTag) : DB × List ObjectTag :=
  ots.foldl (fun (st : DB × List ObjectTag) ot =>
    let s := saveObjectTag st.1 ot
    (s.1, st.2 ++ [s.2])) (db, [])

/-- The cleanup phase of `tag_object`: delete every omitted existing tag. -/
def deleteAll (db : DB) (l : List (TagRef × ObjectTag)) : DB :=
  l.foldl (fun d p => deleteObjectTag d p.2) db

/-- `Taxonomy.tag_object`: replace the object's tags for this taxonomy.
Returns the database as left by the operation together with either the
ordered saved object tags or the raised error. -/
def tagObject (tx : Taxonomy) (refs : List TagRef) (objectId : String) (db : DB) :
    DB × Except String (List ObjectTag) :=
  if !tx.allowMultiple && refs.length > 1 then
    (db, Except.error "taxonomy only allows one tag per object")
  else if tx.required && refs.length == 0 then
    (db, Except.error "taxonomy requires at least one tag per object")
  else
    let current := buildDict (db.objectTags.filter
      (fun ot => ot.taxonomyId == some tx.id && ot.objectId == objectId))
    match tagObjectLoop tx objectId refs db current [] with
    | (db1, _, Except.error e) => (db1, Except.error e)
    | (db1, remaining, Except.ok updated) =>
      let s := saveAll db1 updated
      (deleteAll s.1 remaining, Except.ok s.2)

/-- `api.get_object_tags`: the stored object tags of an object, optionally
filtered by type and taxonomy, ordered by id; with `valid_only` only those
with a (truthy) taxonomy link that pass `is_valid`. -/
def getObjectTags (db : DB) (objectId : String) (objectType : Option String)
    (taxonomy : Option Taxonomy) (validOnly : Bool) : List ObjectTag :=
  let ts := db.objectTags.filter (fun ot => ot.objectId == objectId)
  let ts := match objectType with
    | none => ts
    | some ty => ts.filter (fun ot => ot.objectType == ty)
  let ts := match taxonomy with
    | none => ts
    | some tx => ts.filter (fun ot => ot.taxonomyId == some tx.id)
  let ts := List.insertionSort (fun a b => a.id ≤ b.id) ts
  if validOnly then ts.filter (fun ot => truthy ot.taxonomyId && isValid db ot) else ts

/-- The ids cascade-deleted with a tag (children of `Tag.parent` have
`on_delete=CASCADE`). -/
def cascadeAux (tags : List Tag) : Nat → List Nat → List Nat
  | 0, s => s
  | Nat.succ n, s =>
    match (tags.filter (fun t =>
        (t.parentId.elim false s.contains) && !s.contains t.id)).map Tag.id with
    | [] => s
    | more => cascadeAux tags n (s ++ more)

/-- All tag ids removed when tag `g` is deleted. -/
def tagsToDelete (db : DB) (g : Nat) : List Nat :=
  cascadeAux db.tags db.tags.length [g]

/-- Deleting a `Tag` row: the row and its descendants are removed and every
`ObjectTag.tag` link to them is nulled (`on_delete=SET_NULL`); the shadow
fields survive. -/
def deleteTag (db : DB) (g : Nat) : DB :=
  let s := tagsToDelete db g
  { db with
    tags := db.tags.filter (fun t => !s.contains t.id),
    objectTags := db.objectTags.map (fun ot =>
      if ot.tagId.elim false s.contains then {ot with tagId := none} else ot) }

/-- The tentative link tried for one relink candidate: the candidate
taxonomy plus a tag of it matching the object tag's (shadow) value, when
one exists. -/
def relinkCandidateOt (db : DB) (ot : ObjectTag) (tx : Taxonomy) : ObjectTag :=
  {ot with taxonomyId := some tx.id,
           tagId := (findTagByValue db tx (otValue db ot)).map Tag.id}

theorem objectTag_eta_tagId (ot : ObjectTag) (g : Option Nat) (h : ot.tagId = g) :
    {ot with tagId := g} = ot := by
  cases ot; simp_all

theorem objectTag_eta_links (ot : ObjectTag) (h1 : ot.taxonomyId = none)
    (h2 : ot.tagId = none) : {ot with taxonomyId := none, tagId := none} = ot := by
  cases ot; simp_all

theorem list_map_eq_self {α : Type} (l : List α) (f : α → α) (h : ∀ x ∈ l, f x = x) :
    l.map f = l := by
  induction l with
  | nil => rfl
  | cons y ys ih =>
    simp only [List.map_cons, h y (List.mem_cons_self y ys)]
    rw [ih (fun x hx => h x (List.mem_cons_of_mem y hx))]

theorem find?_id_self (l : List Tag) (t : Tag) (hmem : t ∈ l)
    (hnd : (l.map Tag.id).Nodup) : l.find? (fun y => y.id == t.id) = some t := by
  induction l with
  | nil => simp at hmem
  | cons y ys ih =>
    simp only [List.map_cons, List.nodup_cons] at hnd
    rcases List.mem_cons.mp hmem with rfl | hmem2
    · rw [List.find?_cons_of_pos _ (by simp)]
    · have hne : (y.id == t.id) = false := by
        simp only [beq_eq_false_iff_ne, ne_eq]
        intro he
        exact hnd.1 (he ▸ List.mem_map_of_mem Tag.id hmem2)
      rw [List.find?_cons_of_neg _ (by simp [hne])]
      exact ih hmem2 hnd.2

theorem findTag_self (db : DB) (t : Tag) (hmem : t ∈ db.tags)
    (hnd : (db.tags.map Tag.id).Nodup) : findTag db t.id = some t :=
  find?_id_self db.tags t hmem hnd

theorem head?_filter_spec {α : Type} (p : α → Bool) (l : List α) (x : α)
    (h : (l.filter p).head? = some x) : x ∈ l ∧ p x = true := by
  cases hl : l.filter p with
  | nil => rw [hl] at h; simp at h
  | cons z zs =>
    rw [hl] at h
    obtain rfl : z = x := by simpa using h
    have hzmem : z ∈ l.filter p := by rw [hl]; exact List.mem_cons_self z zs
    exact List.mem_filter.mp hzmem

theorem findTagByValue_spec (db : DB) (tx : Taxonomy) (v : String) (tg : Tag)
    (h : findTagByValue db tx v = some tg) :
    tg ∈ db.tags ∧ tg.taxonomyId = some tx.id ∧ tg.value = v := by
  have := head?_filter_spec _ _ _ h
  refine ⟨this.1, ?_, ?_⟩
  · have h2 := this.2
    simp only [Bool.and_eq_true, beq_iff_eq] at h2
    exact h2.1
  · have h2 := this.2
    simp only [Bool.and_eq_true, beq_iff_eq] at h2
    exact h2.2

theorem getLineageAux_length (db : DB) :
    ∀ (d : Nat) (o : Option Tag) (acc : List String),
      (getLineageAux db o d acc).length ≤ d + acc.length := by
  intro d
  induction d with
  | zero => intro o acc; cases o <;> simp [getLineageAux]
  | succ n ih =>
    intro o acc
    cases o with
    | none => simp [getLineageAux]
    | some t =>
      have := ih (t.parentId.bind (findTag db)) (t.value :: acc)
      simp only [getLineageAux, List.length_cons] at this ⊢
      omega

theorem getLineageAux_getLast (db : DB) :
    ∀ (d : Nat) (o : Option Tag) (acc : List String), acc ≠ [] →
      (getLineageAux db o d acc).getLast? = acc.getLast? := by
  intro d
  induction d with
  | zero => intro o acc _; cases o <;> simp [getLineageAux]
  | succ n ih =>
    intro o acc hne
    cases o with
    | none => simp [getLineageAux]
    | some t =>
      show (getLineageAux db (t.parentId.bind (findTag db)) n (t.value :: acc)).getLast? = _
      rw [ih _ (t.value :: acc) (by simp)]
      cases acc with
      | nil => exact absurd rfl hne
      | cons x xs => exact List.getLast?_cons_cons

theorem getLineageAux_append (db : DB) :
    ∀ (d : Nat) (o : Option Tag) (acc : List String),
      getLineageAux db o d acc = getLineageAux db o d [] ++ acc := by
  intro d
  induction d with
  | zero => intro o acc; cases o <;> simp [getLineageAux]
  | succ n ih =>
    intro o acc
    cases o with
    | none => simp [getLineageAux]
    | some t =>
      have h1 : getLineageAux db (some t) (n + 1) acc
          = getLineageAux db (t.parentId.bind (findTag db)) n (t.value :: acc) := rfl
      have h2 : getLineageAux db (some t) (n + 1) []
          = getLineageAux db (t.parentId.bind (findTag db)) n [t.value] := rfl
      rw [h1, h2, ih _ (t.value :: acc), ih _ [t.value]]
      simp

/-- **C7**: for every tag, `get_lineage` terminates within
`TAXONOMY_MAX_DEPTH = 3` iterations (structurally, by the fuel counter
mirroring the `depth` counter of the source), returns at most 3 value
strings whose last element is the tag's own value, preceded by the values
of its ancestors (oldest first) — even when the parent chain is corrupted
or cyclic, since `db` is arbitrary. -/
theorem getLineage_bounded (db : DB) (t : Tag) :
    (getLineage db t).length ≤ TAXONOMY_MAX_DEPTH ∧
    (getLineage db t).getLast? = some t.value ∧
    getLineage db t =
      getLineageAux db (t.parentId.bind (findTag db)) (TAXONOMY_MAX_DEPTH - 1) []
        ++ [t.value] := by
  refine ⟨?_, ?_, ?_⟩
  · have := getLineageAux_length db 2 (t.parentId.bind (findTag db)) [t.value]
    simpa [getLineage, TAXONOMY_MAX_DEPTH, getLineageAux] using this
  · have := getLineageAux_getLast db 2 (t.parentId.bind (findTag db)) [t.value] (by simp)
    simpa [getLineage, TAXONOMY_MAX_DEPTH, getLineageAux] using this
  · have := getLineageAux_append db 2 (t.parentId.bind (findTag db)) [t.value]
    simpa [getLineage, TAXONOMY_MAX_DEPTH, getLineageAux] using this

theorem relinkLoop_frame (db : DB) : ∀ (l : List Taxonomy) (ot : ObjectTag),
    (relinkLoop db ot l).1.id = ot.id ∧
    (relinkLoop db ot l).1.objectId = ot.objectId ∧
    (relinkLoop db ot l).1.objectType = ot.objectType ∧
    (relinkLoop db ot l).1.sName = ot.sName ∧
    (relinkLoop db ot l).1.sValue = ot.sValue := by
  intro l
  induction l with
  | nil => intro ot; simp [relinkLoop]
  | cons tx rest ih =>
    intro ot
    simp only [relinkLoop]
    split
    · simp
    · simpa using ih {ot with taxonomyId := none, tagId := none}

theorem resyncPhase1_frame (db : DB) (ot : ObjectTag) :
    (resyncPhase1 db ot).1.id = ot.id ∧
    (resyncPhase1 db ot).1.objectId = ot.objectId ∧
    (resyncPhase1 db ot).1.objectType = ot.objectType ∧
    (resyncPhase1 db ot).1.sName = ot.sName ∧
    (resyncPhase1 db ot).1.sValue = ot.sValue := by
  unfold resyncPhase1
  split
  · simp
  · split
    · simp
    · exact relinkLoop_frame db (resyncCandidates db ot) ot

theorem resyncPhase1_of_truthy (db : DB) (ot : ObjectTag)
    (h : truthy ot.taxonomyId = true) : resyncPhase1 db ot = (ot, false) := by
  unfold resyncPhase1
  simp [h]

theorem resyncPhase1_tagId (db : DB) (ot : ObjectTag)
    (h : truthy ot.tagId = true) : (resyncPhase1 db ot).1.tagId = ot.tagId := by
  unfold resyncPhase1
  split
  · rfl
  · simp [h]

theorem resyncPhase2_frame (db : DB) (ot : ObjectTag) :
    (resyncPhase2 db ot).1.id = ot.id ∧
    (resyncPhase2 db ot).1.objectId = ot.objectId ∧
    (resyncPhase2 db ot).1.objectType = ot.objectType ∧
    (resyncPhase2 db ot).1.taxonomyId = ot.taxonomyId ∧
    (resyncPhase2 db ot).1.tagId = ot.tagId ∧
    (resyncPhase2 db ot).1.sValue = ot.sValue := by
  unfold resyncPhase2
  split
  · split
    · split <;> simp
    · simp
  · simp

theorem resyncPhase4_frame (db : DB) (ot : ObjectTag) :
    (resyncPhase4 db ot).1.id = ot.id ∧
    (resyncPhase4 db ot).1.objectId = ot.objectId ∧
    (resyncPhase4 db ot).1.objectType = ot.objectType ∧
    (resyncPhase4 db ot).1.taxonomyId = ot.taxonomyId ∧
    (resyncPhase4 db ot).1.tagId = ot.tagId ∧
    (resyncPhase4 db ot).1.sName = ot.sName := by
  unfold resyncPhase4
  split
  · split <;> simp
  · simp

theorem resyncPhase34_frame (db : DB) (ot : ObjectTag) :
    (resyncPhase34 db ot).1.id = ot.id ∧
    (resyncPhase34 db ot).1.objectId = ot.objectId ∧
    (resyncPhase34 db ot).1.objectType = ot.objectType ∧
    (resyncPhase34 db ot).1.taxonomyId = ot.taxonomyId ∧
    (resyncPhase34 db ot).1.sName = ot.sName := by
  unfold resyncPhase34
  split
  · split
    · split <;> simp
    · have := resyncPhase4_frame db ot
      tauto
  · have := resyncPhase4_frame db ot
    tauto

theorem resyncPhase34_tagId (db : DB) (ot : ObjectTag)
    (h : truthy ot.tagId = true) : (resyncPhase34 db ot).1.tagId = ot.tagId := by
  unfold resyncPhase34
  split
  · split
    · simp_all
    · exact (resyncPhase4_frame db ot).2.2.2.2.1
  · exact (resyncPhase4_frame db ot).2.2.2.2.1

/-- **C10**: `resync` never clears or replaces an existing non-null
taxonomy or tag link (the relinking and tag-linking steps only run when
the respective link is falsy), and it modifies no fields besides the two
links and the shadow `_name`/`_value`: `id`, `object_id` (and the
`object_type` classifier) are unchanged.  The hypotheses exclude the
degenerate stored id `0` (Django auto-ids start at 1), which Python
truthiness would treat as an absent link. -/
theorem resync_frame (db : DB) (ot : ObjectTag)
    (h1 : ot.taxonomyId ≠ some 0) (h2 : ot.tagId ≠ some 0) :
    (resync db ot).1.id = ot.id ∧
    (resync db ot).1.objectId = ot.objectId ∧
    (resync db ot).1.objectType = ot.objectType ∧
    (ot.taxonomyId ≠ none → (resync db ot).1.taxonomyId = ot.taxonomyId) ∧
    (ot.tagId ≠ none → (resync db ot).1.tagId = ot.tagId) := by
  have f1 := resyncPhase1_frame db ot
  have f2 := resyncPhase2_frame db (resyncPhase1 db ot).1
  have f34 := resyncPhase34_frame db (resyncPhase2 db (resyncPhase1 db ot).1).1
  have hres : (resync db ot).1 = (resyncPhase34 db (resyncPhase2 db (resyncPhase1 db ot).1).1).1 := rfl
  refine ⟨?_, ?_, ?_, ?_, ?_⟩
  · rw [hres]; rw [f34.1, f2.1, f1.1]
  · rw [hres]; rw [f34.2.1, f2.2.1, f1.2.1]
  · rw [hres]; rw [f34.2.2.1, f2.2.2.1, f1.2.2.1]
  · intro hne
    have htr : truthy ot.taxonomyId = true := by
      cases hx : ot.taxonomyId with
      | none => exact absurd hx hne
      | some i =>
        have : i ≠ 0 := fun h0 => h1 (by rw [hx, h0])
        simp [truthy, this]
    rw [hres, f34.2.2.2.1, f2.2.2.2.1, resyncPhase1_of_truthy db ot htr]
  · intro hne
    have htr : truthy ot.tagId = true := by
      cases hx : ot.tagId with
      | none => exact absurd hx hne
      | some i =>
        have : i ≠ 0 := fun h0 => h2 (by rw [hx, h0])
        simp [truthy, this]
    have e1 : (resyncPhase1 db ot).1.tagId = ot.tagId := resyncPhase1_tagId db ot htr
    have e2 : (resyncPhase2 db (resyncPhase1 db ot).1).1.tagId = ot.tagId := by
      rw [f2.2.2.2.2.1, e1]
    have htr2 : truthy (resyncPhase2 db (resyncPhase1 db ot).1).1.tagId = true := by
      rw [e2]; exact htr
    rw [hres, resyncPhase34_tagId db _ htr2, e2]

/-- Concrete instantiation of `resync_frame`. -/
theorem resync_frame_witness :
    let ot : ObjectTag :=
      { id := 7, objectId := "o", objectType := "t", taxonomyId := some 1,
        tagId := some 2, sName := "n", sValue := "v" }
    let db : DB :=
      { taxonomies := [], tags := [], objectTags := [], instances := [],
        nextTagId := 1, nextObjectTagId := 1 }
    (resync db ot).1.id = ot.id ∧
    (resync db ot).1.objectId = ot.objectId ∧
    (resync db ot).1.objectType = ot.objectType ∧
    (ot.taxonomyId ≠ none → (resync db ot).1.taxonomyId = ot.taxonomyId) ∧
    (ot.tagId ≠ none → (resync db ot).1.tagId = ot.tagId) := by
  exact resync_frame _ _ (by decide) (by decide)

theorem setTag_objectTags (db : DB) (tx : Taxonomy) (r : TagRef) (ot : ObjectTag) :
    (setTag db tx r ot).1.objectTags = db.objectTags := by
  unfold setTag setTagModel resyncTag saveTagUpdate
  cases tx.variant <;> simp only
  case modelBacked =>
    split
    · split
      · simp
      · split <;> simp
    · split
      · simp
      · simp
    · simp

theorem tagObjectLoop_objectTags (tx : Taxonomy) (obj : String) :
    ∀ (rs : List TagRef) (db : DB) (cur : List (TagRef × ObjectTag)) (acc : List ObjectTag),
      (tagObjectLoop tx obj rs db cur acc).1.objectTags = db.objectTags := by
  intro rs
  induction rs with
  | nil => intro db cur acc; rfl
  | cons r rest ih =>
    intro db cur acc
    simp only [tagObjectLoop]
    rcases hst : setTag db tx r (match dictPop cur r with
      | some q => q
      | none => (freshObjectTag tx obj, cur)).1 with ⟨db1, res⟩
    have hpres : db1.objectTags = db.objectTags := by
      have := setTag_objectTags db tx r (match dictPop cur r with
        | some q => q
        | none => (freshObjectTag tx obj, cur)).1
      rw [hst] at this
      exact this
    rw [hst]
    cases res with
    | none => simpa using hpres
    | some ot1 =>
      simp only
      split
      · rw [ih db1 _ _]; exact hpres
      · simpa using hpres

theorem tagObjectLoop_ok_length (tx : Taxonomy) (obj : String) :
    ∀ (rs : List TagRef) (db : DB) (cur : List (TagRef × ObjectTag))
      (acc ots : List ObjectTag),
      (tagObjectLoop tx obj rs db cur acc).2.2 = Except.ok ots →
      ots.length = acc.length + rs.length := by
  intro rs
  induction rs with
  | nil =>
    intro db cur acc ots h
    simp only [tagObjectLoop] at h
    obtain rfl : acc = ots := by simpa using h
    simp
  | cons r rest ih =>
    intro db cur acc ots h
    simp only [tagObjectLoop] at h
    rcases hst : setTag db tx r (match dictPop cur r with
      | some q => q
      | none => (freshObjectTag tx obj, cur)).1 with ⟨db1, res⟩
    rw [hst] at h
    cases res with
    | none => simp at h
    | some ot1 =>
      simp only at h
      split at h
      · have := ih db1 _ (acc ++ [ot1]) ots h
        simp only [List.length_append, List.length_cons, List.length_nil] at this ⊢
        omega
      · simp at h

theorem saveAll_go_length :
    ∀ (ots : List ObjectTag) (db : DB) (acc : List ObjectTag),
      (ots.foldl (fun (st : DB × List ObjectTag) ot =>
        let s := saveObjectTag st.1 ot
        (s.1, st.2 ++ [s.2])) (db, acc)).2.length = acc.length + ots.length := by
  intro ots
  induction ots with
  | nil => intro db acc; simp
  | cons x xs ih =>
    intro db acc
    simp only [List.foldl_cons]
    rw [ih]
    simp only [List.length_append, List.length_cons, List.length_nil]
    omega

theorem saveAll_length (db : DB) (ots : List ObjectTag) :
    (saveAll db ots).2.length = ots.length := by
  unfold saveAll
  rw [saveAll_go_length]
  simp

theorem tagObject_error_objectTags (tx : Taxonomy) (refs : List TagRef)
    (obj : String) (db : DB) :
    ∀ e, (tagObject tx refs obj db).2 = Except.error e →
      (tagObject tx refs obj db).1.objectTags = db.objectTags := by
  intro e
  unfold tagObject
  split
  · intro _; rfl
  · split
    · intro _; rfl
    · rcases hloop : tagObjectLoop tx obj refs db (buildDict (db.objectTags.filter
          (fun ot => ot.taxonomyId == some tx.id && ot.objectId == obj))) [] with ⟨db1, rem, res⟩
      have hpres : db1.objectTags = db.objectTags := by
        have := tagObjectLoop_objectTags tx obj refs db (buildDict (db.objectTags.filter
          (fun ot => ot.taxonomyId == some tx.id && ot.objectId == obj))) []
        rw [hloop] at this
        exact this
      simp only [hloop]
      cases res with
      | error e2 => intro _; simpa using hpres
      | ok ots => intro h; simp at h

theorem tagObject_ok_length (tx : Taxonomy) (refs : List TagRef)
    (obj : String) (db : DB) :
    ∀ ots, (tagObject tx refs obj db).2 = Except.ok ots → ots.length = refs.length := by
  intro ots
  unfold tagObject
  split
  · intro h; simp at h
  · split
    · intro h; simp at h
    · rcases hloop : tagObjectLoop tx obj refs db (buildDict (db.objectTags.filter
          (fun ot => ot.taxonomyId == some tx.id && ot.objectId == obj))) [] with ⟨db1, rem, res⟩
      simp only [hloop]
      cases res with
      | error e2 => intro h; simp at h
      | ok ots2 =>
        intro h
        have hlen : ots2.length = refs.length := by
          have := tagObjectLoop_ok_length tx obj refs db (buildDict (db.objectTags.filter
            (fun ot => ot.taxonomyId == some tx.id && ot.objectId == obj))) [] ots2
          rw [hloop] at this
          simpa using this rfl
        obtain rfl : (saveAll db1 ots2).2 = ots := by simpa using h
        rw [saveAll_length, hlen]

/-- **C1**: `tag_object` rejects (raises) when `allow_multiple` is off and
more than one reference is supplied, and when `required` is on and no
reference is supplied — in both cases returning the database untouched.
Moreover *whenever* the operation raises — which includes every failure of
a single reference's variant validation inside the loop, by construction
the only other error source — the stored `ObjectTag` rows are exactly
those before the call: the whole candidate set is validated before any
ObjectTag is persisted or deleted.  On success every supplied reference
accounts for exactly one returned object tag. -/
theorem tagObject_rejects_and_preserves (tx : Taxonomy) (refs : List TagRef)
    (obj : String) (db : DB) :
    ((!tx.allowMultiple && refs.length > 1) = true →
      tagObject tx refs obj db = (db, Except.error "taxonomy only allows one tag per object")) ∧
    ((tx.required && refs.length == 0) = true →
      tagObject tx refs obj db = (db, Except.error "taxonomy requires at least one tag per object")) ∧
    (∀ e, (tagObject tx refs obj db).2 = Except.error e →
      (tagObject tx refs obj db).1.objectTags = db.objectTags) ∧
    (∀ ots, (tagObject tx refs obj db).2 = Except.ok ots → ots.length = refs.length) := by
  refine ⟨?_, ?_, tagObject_error_objectTags tx refs obj db,
    tagObject_ok_length tx refs obj db⟩
  · intro h
    unfold tagObject
    simp [h]
  · intro h
    unfold tagObject
    rcases hm : (!tx.allowMultiple && decide (refs.length > 1)) with _ | _
    · simp [hm, h]
    · simp only [Bool.and_eq_true, beq_iff_eq] at h
      simp only [Bool.and_eq_true, Bool.not_eq_true', decide_eq_true_eq] at hm
      omega

/-- Concrete instantiation of `tagObject_rejects_and_preserves`: a
single-tag-only taxonomy rejects a two-reference request and leaves the
store untouched. -/
theorem tagObject_rejects_witness :
    let tx : Taxonomy :=
      { id := 1, name := "S", enabled := true, required := true,
        allowMultiple := false, allowFreeText := false, systemDefined := false,
        variant := Variant.base }
    let db : DB :=
      { taxonomies := [tx], tags := [], objectTags := [], instances := [],
        nextTagId := 1, nextObjectTagId := 1 }
    tagObject tx [TagRef.byId 1, TagRef.byId 2] "obj" db
      = (db, Except.error "taxonomy only allows one tag per object") ∧
    tagObject tx [] "obj" db
      = (db, Except.error "taxonomy requires at least one tag per object") := by
  refine ⟨?_, ?_⟩
  · exact (tagObject_rejects_and_preserves _ _ _ _).1 (by decide)
  · exact (tagObject_rejects_and_preserves _ _ _ _).2.1 (by decide)

theorem cascadeAux_subset (tags : List Tag) :
    ∀ (n : Nat) (s : List Nat), s ⊆ cascadeAux tags n s := by
  intro n
  induction n with
  | zero => intro s; exact fun _ h => h
  | succ m ih =>
    intro s
    unfold cascadeAux
    split
    · exact fun _ h => h
    · exact fun x hx => ih _ (List.mem_append_left _ hx)

theorem mem_tagsToDelete_self (db : DB) (g : Nat) : g ∈ tagsToDelete db g :=
  cascadeAux_subset db.tags db.tags.length [g] (List.mem_singleton.mpr rfl)

/-- **C6 counterexample**: the claim asserts `is_valid()` returns false
after the backing tag of an object tag is deleted, for *every* object tag.
It fails for a free-text taxonomy: the relinking step of `resync` can
attach a backing tag even to a free-text taxonomy, and after that tag is
deleted the free-text `_check_tag` succeeds on the surviving non-empty
shadow value, so `is_valid()` is still true. -/
theorem isValid_after_delete_counterexample :
    let tx : Taxonomy :=
      { id := 1, name := "Free", enabled := true, required := false,
        allowMultiple := true, allowFreeText := true, systemDefined := false,
        variant := Variant.base }
    let db : DB :=
      { taxonomies := [tx],
        tags := [{ id := 1, taxonomyId := some 1, parentId := none, value := "v",
                   externalId := none }],
        objectTags := [{ id := 1, objectId := "o", objectType := "", taxonomyId := some 1,
                         tagId := some 1, sName := "Free", sValue := "v" }],
        instances := [], nextTagId := 2, nextObjectTagId := 2 }
    let otAfter : ObjectTag :=
      { id := 1, objectId := "o", objectType := "", taxonomyId := some 1,
        tagId := none, sName := "Free", sValue := "v" }
    (deleteTag db 1).objectTags = [otAfter] ∧
    otValue (deleteTag db 1) otAfter = "v" ∧
    isValid (deleteTag db 1) otAfter = true := by
  refine ⟨by decide, by decide, by decide⟩

/-- **C6 (amended)**: while an object tag is linked to a tag `t`, its
`value` equals `t.value`.  After the backing tag is deleted the tag link is
nulled, `value` falls back to the (pre-deletion) shadow `_value`, and
`is_valid()` returns false *provided the linked taxonomy is not free-text*
(a free-text taxonomy can re-validate through the non-empty shadow value —
see the counterexample).  An object tag with no taxonomy link is never
valid. -/
theorem objectTag_value_shadow (db : DB) :
    (∀ (ot : ObjectTag) (g : Nat) (tg : Tag), ot.tagId = some g → g ≠ 0 →
       findTag db g = some tg → otValue db ot = tg.value) ∧
    (∀ (g : Nat) (ot : ObjectTag), ot ∈ db.objectTags → ot.tagId = some g →
       {ot with tagId := none} ∈ (deleteTag db g).objectTags ∧
       otValue (deleteTag db g) {ot with tagId := none} = ot.sValue ∧
       (∀ tx, otTaxonomy (deleteTag db g) {ot with tagId := none} = some tx →
          tx.allowFreeText = false →
          isValid (deleteTag db g) {ot with tagId := none} = false)) ∧
    (∀ ot : ObjectTag, ot.taxonomyId = none → isValid db ot = false) := by
  refine ⟨?_, ?_, ?_⟩
  · intro ot g tg hg hg0 hfind
    unfold otValue otTag
    rw [hg]
    simp [truthy, hg0, hfind]
  · intro g ot hmem hg
    have hcont : (tagsToDelete db g).contains g = true :=
      List.elem_eq_true_of_mem (mem_tagsToDelete_self db g)
    refine ⟨?_, ?_, ?_⟩
    · have := List.mem_map_of_mem (fun ot : ObjectTag =>
        if ot.tagId.elim false (tagsToDelete db g).contains then {ot with tagId := none}
        else ot) hmem
      simp only [hg, Option.elim, hcont, if_pos] at this
      exact this
    · unfold otValue otTag
      simp [truthy]
    · intro tx htx hfree
      have hval : validateObjectTag (deleteTag db g) tx {ot with tagId := none} = false := by
        unfold validateObjectTag checkTag
        simp only [hfree]
        cases tx.variant <;> simp [truthy]
      unfold isValid
      simp [htx, hval]
  · intro ot h
    unfold isValid
    rw [h]
    rfl

/-- Concrete instantiation of `objectTag_value_shadow`. -/
theorem objectTag_value_shadow_witness :
    let tx : Taxonomy :=
      { id := 1, name := "Closed", enabled := true, required := false,
        allowMultiple := true, allowFreeText := false, systemDefined := false,
        variant := Variant.base }
    let tg : Tag := { id := 1, taxonomyId := some 1, parentId := none, value := "v",
                      externalId := none }
    let ot : ObjectTag :=
      { id := 1, objectId := "o", objectType := "", taxonomyId := some 1,
        tagId := some 1, sName := "Closed", sValue := "v" }
    let db : DB :=
      { taxonomies := [tx], tags := [tg], objectTags := [ot], instances := [],
        nextTagId := 2, nextObjectTagId := 2 }
    otValue db ot = "v" ∧
    otValue (deleteTag db 1) {ot with tagId := none} = "v" ∧
    isValid (deleteTag db 1) {ot with tagId := none} = false := by
  intro tx tg ot db
  have h := objectTag_value_shadow db
  refine ⟨?_, ?_, ?_⟩
  · exact h.1 ot 1 tg rfl (by decide) (by decide)
  · exact (h.2.1 1 ot (by decide) rfl).2.1
  · exact (h.2.1 1 ot (by decide) rfl).2.2 tx (by decide) rfl

/-- **C5**: model-backed resolve-or-create (`ModelSystemDefinedTaxonomy._set_tag`
with `_resync_tag`).  When no tag of the taxonomy carries the reference as
`external_id` and the external instance exists, exactly one new tag is
appended whose `external_id` is the instance's identifier and whose `value`
is the instance's display string, and the object tag links to it.  When a
(unique) tag with that `external_id` already exists, it is reused — no tag
is created — and its `value` is overwritten with the instance's current
display string when they differ, left alone when they agree. -/
theorem setTagModel_resolve_or_create (db : DB) (tx : Taxonomy) (r : TagRef)
    (ot : ObjectTag) :
    (db.tags.filter (fun t => t.taxonomyId == some tx.id
        && t.externalId == some (refValue r)) = [] →
      ∀ inst, db.instances.find? (fun i => i.pk == refValue r) = some inst →
        setTagModel db tx r ot =
          ({db with
              tags := db.tags
                ++ [Tag.mk db.nextTagId (some tx.id) none inst.display (some inst.pk)],
              nextTagId := db.nextTagId + 1},
           some {ot with tagId := some db.nextTagId})) ∧
    (∀ tg, db.tags.filter (fun t => t.taxonomyId == some tx.id
        && t.externalId == some (refValue r)) = [tg] →
      ∀ inst, tg.externalId.bind (fun e => db.instances.find? (fun i => i.pk == e))
          = some inst →
        (tg.value = inst.display →
          setTagModel db tx r ot = (db, some {ot with tagId := some tg.id})) ∧
        (tg.value ≠ inst.display →
          setTagModel db tx r ot =
            ({db with tags := db.tags.map (fun t =>
                if t.id == tg.id then {tg with value := inst.display} else t)},
             some {ot with tagId := some tg.id}))) := by
  constructor
  · intro hfilt inst hinst
    unfold setTagModel
    rw [hfilt, hinst]
  · intro tg hfilt inst hinst
    constructor
    · intro heq
      unfold setTagModel resyncTag
      rw [hfilt]
      simp only [hinst]
      rw [if_neg (by simp [heq])]
    · intro hne
      unfold setTagModel resyncTag saveTagUpdate
      rw [hfilt]
      simp only [hinst]
      rw [if_pos (by simpa using hne)]

/-- Concrete instantiation of `setTagModel_resolve_or_create`: create on
first reference, reuse-and-refresh on the second. -/
theorem setTagModel_resolve_or_create_witness :
    let tx : Taxonomy :=
      { id := 1, name := "Users", enabled := true, required := false,
        allowMultiple := true, allowFreeText := false, systemDefined := true,
        variant := Variant.modelBacked }
    let db : DB :=
      { taxonomies := [tx], tags := [], objectTags := [],
        instances := [{ pk := "u1", display := "alice" }],
        nextTagId := 1, nextObjectTagId := 1 }
    let newTag : Tag :=
      { id := 1, taxonomyId := some 1, parentId := none, value := "alice",
        externalId := some "u1" }
    let db1 : DB := {db with tags := [newTag], nextTagId := 2}
    let ot : ObjectTag :=
      { id := 0, objectId := "o", objectType := "", taxonomyId := some 1,
        tagId := none, sName := "", sValue := "" }
    setTagModel db tx (TagRef.byValue "u1") ot = (db1, some {ot with tagId := some 1}) ∧
    setTagModel db1 tx (TagRef.byValue "u1") ot = (db1, some {ot with tagId := some 1}) := by
  intro tx db newTag db1 ot
  constructor
  · exact (setTagModel_resolve_or_create db tx (TagRef.byValue "u1") ot).1
      (by decide) { pk := "u1", display := "alice" } (by decide)
  · exact ((setTagModel_resolve_or_create db1 tx (TagRef.byValue "u1") ot).2 newTag
      (by decide) { pk := "u1", display := "alice" } (by decide)).1 rfl

instance : IsTotal ObjectTag (fun a b => a.id ≤ b.id) :=
  ⟨fun a b => Nat.le_total a.id b.id⟩

instance : IsTrans ObjectTag (fun a b => a.id ≤ b.id) :=
  ⟨fun _ _ _ hab hbc => Nat.le_trans hab hbc⟩

/-- **C9**: `get_object_tags` with `valid_only=False` yields exactly the
stored object tags whose `object_id` matches, restricted by `object_type`
and taxonomy when supplied, ordered by id; with `valid_only=True` it keeps
exactly the subset of those that carry a (truthy) taxonomy link and pass
`is_valid()`. -/
theorem getObjectTags_spec (db : DB) (oid : String) (ty : Option String)
    (tx : Option Taxonomy) :
    (∀ ot, ot ∈ getObjectTags db oid ty tx false ↔
       (ot ∈ db.objectTags ∧ ot.objectId = oid ∧
        (∀ t, ty = some t → ot.objectType = t) ∧
        (∀ x, tx = some x → ot.taxonomyId = some x.id))) ∧
    (∀ v, List.Sorted (fun a b : ObjectTag => a.id ≤ b.id) (getObjectTags db oid ty tx v)) ∧
    (∀ ot, ot ∈ getObjectTags db oid ty tx true ↔
       (ot ∈ getObjectTags db oid ty tx false ∧ truthy ot.taxonomyId = true ∧
        isValid db ot = true)) := by
  refine ⟨?_, ?_, ?_⟩
  · intro ot
    unfold getObjectTags
    simp only [Bool.false_eq_true, if_false]
    rw [List.mem_insertionSort]
    cases ty <;> cases tx <;>
      simp [List.mem_filter, and_assoc] <;>
      aesop
  · intro v
    unfold getObjectTags
    cases v
    · simp only [Bool.false_eq_true, if_false]
      exact List.sorted_insertionSort _ _
    · simp only [if_true]
      exact List.Pairwise.filter _ (List.sorted_insertionSort _ _)
  · intro ot
    unfold getObjectTags
    simp only [Bool.false_eq_true, if_false, if_true]
    rw [List.mem_filter]
    simp [Bool.and_eq_true]

/-- Concrete instantiation of `getObjectTags_spec`. -/
theorem getObjectTags_spec_witness :
    let ot1 : ObjectTag :=
      { id := 1, objectId := "o", objectType := "course", taxonomyId := none,
        tagId := none, sName := "n", sValue := "v" }
    let db : DB :=
      { taxonomies := [], tags := [], objectTags := [ot1], instances := [],
        nextTagId := 1, nextObjectTagId := 2 }
    (ot1 ∈ getObjectTags db "o" none none false) ∧
    (ot1 ∉ getObjectTags db "o" none none true) := by
  intro ot1 db
  constructor
  · refine ((getObjectTags_spec db "o" none none).1 ot1).mpr ⟨by decide, rfl, ?_, ?_⟩
    · intro t h; cases h
    · intro x h; cases h
  · intro hmem
    have := ((getObjectTags_spec db "o" none none).2.2 ot1).mp hmem
    simp [truthy] at this

theorem otValue_of_none (db : DB) (ot : ObjectTag) (h : ot.tagId = none) :
    otValue db ot = ot.sValue := by
  unfold otValue
  rw [h]
  rfl

theorem relinkLoop_all_fail (db : DB) (ot : ObjectTag)
    (hTax : ot.taxonomyId = none) (hTag : ot.tagId = none) :
    ∀ l, (∀ tx ∈ l, validateObjectTag db tx (relinkCandidateOt db ot tx) = false) →
      relinkLoop db ot l = (ot, false) := by
  intro l
  induction l with
  | nil => intro _; rfl
  | cons tx rest ih =>
    intro hall
    have hacc := hall tx (List.mem_cons_self tx rest)
    unfold relinkCandidateOt at hacc
    have hreset : {ot with taxonomyId := none, tagId := none} = ot :=
      objectTag_eta_links ot hTax hTag
    simp only [relinkLoop]
    rw [hacc]
    simp only [Bool.false_eq_true, if_false]
    rw [hreset]
    exact ih (fun ty hy => hall ty (List.mem_cons_of_mem tx hy))

theorem relinkLoop_first_accept (db : DB) (ot : ObjectTag)
    (hTax : ot.taxonomyId = none) (hTag : ot.tagId = none) :
    ∀ pre tx post,
      (∀ ty ∈ pre, validateObjectTag db ty (relinkCandidateOt db ot ty) = false) →
      validateObjectTag db tx (relinkCandidateOt db ot tx) = true →
      relinkLoop db ot (pre ++ tx :: post) = (relinkCandidateOt db ot tx, true) := by
  intro pre
  induction pre with
  | nil =>
    intro tx post _ hacc
    unfold relinkCandidateOt at hacc ⊢
    simp only [List.nil_append, relinkLoop]
    rw [hacc]
    simp
  | cons ty rest ih =>
    intro tx post hall hacc
    have hfail := hall ty (List.mem_cons_self ty rest)
    unfold relinkCandidateOt at hfail
    have hreset : {ot with taxonomyId := none, tagId := none} = ot :=
      objectTag_eta_links ot hTax hTag
    simp only [List.cons_append, relinkLoop]
    rw [hfail]
    simp only [Bool.false_eq_true, if_false]
    rw [hreset]
    exact ih tx post (fun tz hz => hall tz (List.mem_cons_of_mem ty hz)) hacc

theorem find?_id_self_tax (l : List Taxonomy) (tx : Taxonomy) (hmem : tx ∈ l)
    (hnd : (l.map Taxonomy.id).Nodup) : l.find? (fun y => y.id == tx.id) = some tx := by
  induction l with
  | nil => simp at hmem
  | cons y ys ih =>
    simp only [List.map_cons, List.nodup_cons] at hnd
    rcases List.mem_cons.mp hmem with rfl | hmem2
    · rw [List.find?_cons_of_pos _ (by simp)]
    · have hne : (y.id == tx.id) = false := by
        simp only [beq_eq_false_iff_ne, ne_eq]
        intro he
        exact hnd.1 (he ▸ List.mem_map_of_mem Taxonomy.id hmem2)
      rw [List.find?_cons_of_neg _ (by simp [hne])]
      exact ih hmem2 hnd.2

theorem checkTaxonomy_truthy (tx : Taxonomy) (ot : ObjectTag)
    (h : checkTaxonomy tx ot = true) :
    truthy ot.taxonomyId = true ∧ ot.taxonomyId = some tx.id := by
  unfold checkTaxonomy at h
  simp only [Bool.and_eq_true, beq_iff_eq] at h
  exact ⟨h.1.1, h.1.2⟩

theorem checkTag_closed_truthy (db : DB) (tx : Taxonomy) (ot : ObjectTag)
    (hfree : tx.allowFreeText = false) (h : checkTag db tx ot = true) :
    truthy ot.tagId = true := by
  unfold checkTag at h
  simp only [hfree, Bool.false_eq_true, if_false] at h
  cases hv : tx.variant <;> rw [hv] at h <;> simp only [Bool.and_eq_true] at h
  · exact h.1
  · exact h.1
  · exact h.1.1

/-- **C4**: for an object tag with no taxonomy link and no tag link,
`resync` searches exactly the enabled taxonomies whose name matches the
shadow `_name`, ordered by `(allow_free_text ascending, id ascending)`;
for each candidate in that order it tentatively links the candidate and a
tag of it whose value equals the shadow `_value` (when found), keeps the
links of the first candidate accepted by `validate_object_tag` and undoes
the tentative links before trying the next; when no candidate validates
the object tag comes out of the call completely unchanged (both links
still null).  When a tag is linked but no taxonomy is, the tag's taxonomy
is adopted directly.  (The taxonomy-id `Nodup` hypothesis is the store's
primary-key uniqueness.) -/
theorem resync_relink_spec (db : DB) (ot : ObjectTag)
    (hTax : ot.taxonomyId = none) (hTag : ot.tagId = none)
    (hTaxNodup : (db.taxonomies.map Taxonomy.id).Nodup) :
    resyncCandidates db ot
        = List.insertionSort taxonomyLe (db.taxonomies.filter
            (fun tx => tx.name == ot.sName && tx.enabled)) ∧
    List.Sorted taxonomyLe (resyncCandidates db ot) ∧
    List.Perm (resyncCandidates db ot)
        (db.taxonomies.filter (fun tx => tx.name == ot.sName && tx.enabled)) ∧
    ((∀ tx ∈ resyncCandidates db ot,
        validateObjectTag db tx (relinkCandidateOt db ot tx) = false) →
      resync db ot = (ot, false)) ∧
    (∀ pre tx post, resyncCandidates db ot = pre ++ tx :: post →
      (∀ ty ∈ pre, validateObjectTag db ty (relinkCandidateOt db ot ty) = false) →
      validateObjectTag db tx (relinkCandidateOt db ot tx) = true →
      ((resync db ot).1.taxonomyId = some tx.id ∧
       (resync db ot).1.tagId = (findTagByValue db tx ot.sValue).map Tag.id)) ∧
    (∀ ot2 : ObjectTag, ot2.taxonomyId = none → truthy ot2.tagId = true →
      (resync db ot2).1.taxonomyId = (otTag db ot2).bind Tag.taxonomyId) := by
  have hname : otName db ot = ot.sName := by
    unfold otName
    rw [hTax]
    rfl
  have hcands : resyncCandidates db ot
      = List.insertionSort taxonomyLe (db.taxonomies.filter
          (fun tx => tx.name == ot.sName && tx.enabled)) := by
    unfold resyncCandidates
    rw [hname]
  refine ⟨hcands, ?_, ?_, ?_, ?_, ?_⟩
  · rw [hcands]; exact List.sorted_insertionSort _ _
  · rw [hcands]; exact List.perm_insertionSort _ _
  · intro hall
    have hloop := relinkLoop_all_fail db ot hTax hTag (resyncCandidates db ot) hall
    have hp1 : resyncPhase1 db ot = (ot, false) := by
      unfold resyncPhase1
      rw [hTax, hTag]
      exact hloop
    have hp2 : resyncPhase2 db ot = (ot, false) := by
      unfold resyncPhase2
      rw [hTax]
      rfl
    have hp34 : resyncPhase34 db ot = (ot, false) := by
      unfold resyncPhase34 otTaxonomy resyncPhase4 otTag
      rw [hTax, hTag]
    unfold resync
    rw [hp1]
    simp only
    rw [hp2]
    simp only
    rw [hp34]
    rfl
  · intro pre tx post hsplit hpre hacc
    have hloop := relinkLoop_first_accept db ot hTax hTag pre tx post hpre hacc
    have hp1 : resyncPhase1 db ot = (relinkCandidateOt db ot tx, true) := by
      unfold resyncPhase1
      rw [hTax, hTag]
      simp only [truthy, Bool.false_eq_true, if_false]
      rw [hsplit]
      exact hloop
    -- validation facts about the accepted tentative link
    have hparts : checkTaxonomy tx (relinkCandidateOt db ot tx) = true ∧
        checkTag db tx (relinkCandidateOt db ot tx) = true := by
      unfold validateObjectTag at hacc
      simp only [Bool.and_eq_true] at hacc
      exact ⟨hacc.1.1, hacc.1.2⟩
    have htx0 : tx.id ≠ 0 := by
      have := (checkTaxonomy_truthy tx _ hparts.1).1
      unfold relinkCandidateOt at this
      simp only [truthy] at this
      simpa using this
    have htxmem : tx ∈ db.taxonomies := by
      have hmem : tx ∈ resyncCandidates db ot := by
        rw [hsplit]
        exact List.mem_append_right pre (List.mem_cons_self tx post)
      have hperm : List.Perm (resyncCandidates db ot)
          (db.taxonomies.filter (fun t => t.name == ot.sName && t.enabled)) := by
        rw [hcands]; exact List.perm_insertionSort _ _
      exact (List.mem_filter.mp (hperm.mem_iff.mp hmem)).1
    have hfindtx : findTaxonomy db tx.id = some tx :=
      find?_id_self_tax db.taxonomies tx htxmem hTaxNodup
    have hval : otValue db ot = ot.sValue := otValue_of_none db ot hTag
    -- the result of resync
    have hres : (resync db ot).1
        = (resyncPhase34 db (resyncPhase2 db (relinkCandidateOt db ot tx)).1).1 := by
      unfold resync
      rw [hp1]
    have f2 := resyncPhase2_frame db (relinkCandidateOt db ot tx)
    have hcandTax : (relinkCandidateOt db ot tx).taxonomyId = some tx.id := rfl
    have hcandTag : (relinkCandidateOt db ot tx).tagId
        = (findTagByValue db tx ot.sValue).map Tag.id := by
      unfold relinkCandidateOt
      rw [hval]
    have h2tax : (resyncPhase2 db (relinkCandidateOt db ot tx)).1.taxonomyId
        = some tx.id := by rw [f2.2.2.2.1, hcandTax]
    have h2tag : (resyncPhase2 db (relinkCandidateOt db ot tx)).1.tagId
        = (findTagByValue db tx ot.sValue).map Tag.id := by
      rw [f2.2.2.2.2.1, hcandTag]
    have f34 := resyncPhase34_frame db (resyncPhase2 db (relinkCandidateOt db ot tx)).1
    constructor
    · rw [hres, f34.2.2.2.1, h2tax]
    · rcases hft : tx.allowFreeText with _ | _
      · -- closed candidate: the accepted link carries a truthy tag, phase 3 skips
        have htr : truthy (relinkCandidateOt db ot tx).tagId = true :=
          checkTag_closed_truthy db tx _ hft hparts.2
        have htr2 : truthy (resyncPhase2 db (relinkCandidateOt db ot tx)).1.tagId = true := by
          rw [f2.2.2.2.2.1]
          exact htr
        rw [hres, resyncPhase34_tagId db _ htr2, h2tag]
      · -- free-text candidate: phase 3 does not fire
        have hot34 : otTaxonomy db (resyncPhase2 db (relinkCandidateOt db ot tx)).1
            = some tx := by
          unfold otTaxonomy
          rw [h2tax]
          simp [htx0, hfindtx]
        have : resyncPhase34 db (resyncPhase2 db (relinkCandidateOt db ot tx)).1
            = resyncPhase4 db (resyncPhase2 db (relinkCandidateOt db ot tx)).1 := by
          unfold resyncPhase34
          rw [hot34]
          simp [hft]
        rw [hres, this,
          (resyncPhase4_frame db (resyncPhase2 db (relinkCandidateOt db ot tx)).1).2.2.2.2.1,
          h2tag]
  · intro ot2 hTax2 hTag2
    have hp1 : (resyncPhase1 db ot2).1 = {ot2 with taxonomyId := (otTag db ot2).bind Tag.taxonomyId} := by
      unfold resyncPhase1
      rw [hTax2, hTag2]
      rfl
    have f2 := resyncPhase2_frame db (resyncPhase1 db ot2).1
    have f34 := resyncPhase34_frame db (resyncPhase2 db (resyncPhase1 db ot2).1).1
    have hres : (resync db ot2).1
        = (resyncPhase34 db (resyncPhase2 db (resyncPhase1 db ot2).1).1).1 := rfl
    rw [hres, f34.2.2.2.1, f2.2.2.2.1, hp1]

/-- Concrete instantiation of `resync_relink_spec`: an orphaned object tag
relinks to the closed taxonomy (first in candidate order) and its matching
tag. -/
theorem resync_relink_spec_witness :
    let tClosed : Taxonomy :=
      { id := 2, name := "N", enabled := true, required := false,
        allowMultiple := false, allowFreeText := false, systemDefined := false,
        variant := Variant.base }
    let tFree : Taxonomy :=
      { id := 1, name := "N", enabled := true, required := false,
        allowMultiple := false, allowFreeText := true, systemDefined := false,
        variant := Variant.base }
    let db : DB :=
      { taxonomies := [tFree, tClosed],
        tags := [{ id := 1, taxonomyId := some 2, parentId := none, value := "v",
                   externalId := none }],
        objectTags := [], instances := [], nextTagId := 2, nextObjectTagId := 1 }
    let ot : ObjectTag :=
      { id := 5, objectId := "o", objectType := "", taxonomyId := none, tagId := none,
        sName := "N", sValue := "v" }
    (resync db ot).1.taxonomyId = some 2 ∧ (resync db ot).1.tagId = some 1 := by
  intro tClosed tFree db ot
  have h := (resync_relink_spec db ot rfl rfl (by decide)).2.2.2.2.1 [] tClosed [tFree]
    (by decide) (by intro ty hy; simp at hy) (by decide)
  refine ⟨h.1, ?_⟩
  rw [h.2]
  decide

theorem not_truthy_eq_none (o : Option Nat) (h0 : o ≠ some 0)
    (h : truthy o = false) : o = none := by
  cases o with
  | none => rfl
  | some n =>
    have hn : n = 0 := by simpa [truthy] using h
    exact absurd (by rw [hn]) h0

theorem otTaxonomy_congr (db : DB) (a b : ObjectTag)
    (h : a.taxonomyId = b.taxonomyId) : otTaxonomy db a = otTaxonomy db b := by
  unfold otTaxonomy
  rw [h]

theorem otTag_congr (db : DB) (a b : ObjectTag)
    (h : a.tagId = b.tagId) : otTag db a = otTag db b := by
  unfold otTag
  rw [h]

theorem otTaxonomy_of_not_truthy (db : DB) (ot : ObjectTag)
    (h : truthy ot.taxonomyId = false) : otTaxonomy db ot = none := by
  unfold otTaxonomy
  cases hx : ot.taxonomyId with
  | none => rfl
  | some n =>
    rw [hx] at h
    have hn : n = 0 := by simpa [truthy] using h
    subst hn
    simp

theorem resyncPhase2_eq_self (db : DB) (ot : ObjectTag)
    (h : ∀ tx, otTaxonomy db ot = some tx → ot.sName = tx.name) :
    resyncPhase2 db ot = (ot, false) := by
  unfold resyncPhase2
  split
  · cases hot : otTaxonomy db ot with
    | none => rfl
    | some tx =>
      have := h tx hot
      simp [this]
  · rfl

theorem resyncPhase2_post (db : DB) (ot : ObjectTag) :
    ∀ tx, otTaxonomy db (resyncPhase2 db ot).1 = some tx →
      (resyncPhase2 db ot).1.sName = tx.name := by
  intro tx htx
  have hsame : otTaxonomy db (resyncPhase2 db ot).1 = otTaxonomy db ot :=
    otTaxonomy_congr db _ _ ((resyncPhase2_frame db ot).2.2.2.1)
  rw [hsame] at htx
  unfold resyncPhase2
  rcases htr : truthy ot.taxonomyId with _ | _
  · rw [otTaxonomy_of_not_truthy db ot htr] at htx
    cases htx
  · simp only [htr, if_true, htx]
    split <;> simp_all

theorem resyncPhase4_eq_self (db : DB) (ot : ObjectTag)
    (h : ∀ tg, otTag db ot = some tg → ot.sValue = tg.value) :
    resyncPhase4 db ot = (ot, false) := by
  unfold resyncPhase4
  cases hot : otTag db ot with
  | none => rfl
  | some tg =>
    have := h tg hot
    simp [this]

theorem resyncPhase4_post (db : DB) (ot : ObjectTag) :
    ∀ tg, otTag db (resyncPhase4 db ot).1 = some tg →
      (resyncPhase4 db ot).1.sValue = tg.value := by
  intro tg htg
  have hsame : otTag db (resyncPhase4 db ot).1 = otTag db ot :=
    otTag_congr db _ _ ((resyncPhase4_frame db ot).2.2.2.2.1)
  rw [hsame] at htg
  unfold resyncPhase4
  rw [htg]
  by_cases hv : ot.sValue = tg.value
  · simp [hv]
  · simp [hv]

theorem resyncPhase4_idem (db : DB) (ot : ObjectTag) :
    resyncPhase4 db (resyncPhase4 db ot).1 = ((resyncPhase4 db ot).1, false) :=
  resyncPhase4_eq_self db _ (resyncPhase4_post db ot)

theorem relinkLoop_result (db : DB) (ot : ObjectTag)
    (hTax : ot.taxonomyId = none) (hTag : ot.tagId = none) :
    ∀ l, relinkLoop db ot l = (ot, false) ∨
      ∃ tx, tx ∈ l ∧ validateObjectTag db tx (relinkCandidateOt db ot tx) = true ∧
        relinkLoop db ot l = (relinkCandidateOt db ot tx, true) := by
  intro l
  induction l with
  | nil => left; rfl
  | cons tx rest ih =>
    rcases hacc : validateObjectTag db tx (relinkCandidateOt db ot tx) with _ | _
    · have hfirst : relinkLoop db ot (tx :: rest)
          = relinkLoop db ot rest := by
        have hreset : {ot with taxonomyId := none, tagId := none} = ot :=
          objectTag_eta_links ot hTax hTag
        unfold relinkCandidateOt at hacc
        simp only [relinkLoop]
        rw [hacc]
        simp only [Bool.false_eq_true, if_false]
        rw [hreset]
      rcases ih with h | ⟨ty, hmem, hy, heq⟩
      · left; rw [hfirst, h]
      · right; exact ⟨ty, List.mem_cons_of_mem tx hmem, hy, by rw [hfirst, heq]⟩
    · right
      refine ⟨tx, List.mem_cons_self tx rest, hacc, ?_⟩
      unfold relinkCandidateOt at hacc ⊢
      simp only [relinkLoop]
      rw [hacc]
      simp

theorem resyncCandidates_mem (db : DB) (ot : ObjectTag) (tx : Taxonomy)
    (h : tx ∈ resyncCandidates db ot) : tx ∈ db.taxonomies := by
  unfold resyncCandidates at h
  have := (List.perm_insertionSort taxonomyLe _).mem_iff.mp h
  exact (List.mem_filter.mp this).1

theorem resync_phases_stable (db : DB) (o1 : ObjectTag)
    (hdbTag0 : ∀ t ∈ db.tags, t.id ≠ 0)
    (hTagNd : (db.tags.map Tag.id).Nodup)
    (htr : truthy o1.taxonomyId = true)
    (hTagOk : o1.tagId ≠ some 0) :
    resync db (resyncPhase34 db (resyncPhase2 db o1).1).1
      = ((resyncPhase34 db (resyncPhase2 db o1).1).1, false) := by
  set o2 := (resyncPhase2 db o1).1 with ho2
  set o3 := (resyncPhase34 db o2).1 with ho3
  have f2 := resyncPhase2_frame db o1
  have f34 := resyncPhase34_frame db o2
  have h2tax : o2.taxonomyId = o1.taxonomyId := f2.2.2.2.1
  have h2tag : o2.tagId = o1.tagId := f2.2.2.2.2.1
  have h3tax : o3.taxonomyId = o2.taxonomyId := f34.2.2.2.1
  have h3name : o3.sName = o2.sName := f34.2.2.2.2
  -- step 1 of the second run skips: the taxonomy link is truthy
  have hA : resyncPhase1 db o3 = (o3, false) :=
    resyncPhase1_of_truthy db o3 (by rw [h3tax, h2tax]; exact htr)
  -- step 2 of the second run reports no change
  have hB : resyncPhase2 db o3 = (o3, false) := by
    apply resyncPhase2_eq_self
    intro tx htx
    rw [otTaxonomy_congr db o3 o2 h3tax] at htx
    rw [h3name]
    exact resyncPhase2_post db o1 tx htx
  -- steps 3/4 of the second run report no change
  have hC : resyncPhase34 db o3 = (o3, false) := by
    cases hot2 : otTaxonomy db o2 with
    | none =>
      have hstep : resyncPhase34 db o2 = resyncPhase4 db o2 := by
        unfold resyncPhase34
        simp only [hot2]
      have hot3 : otTaxonomy db o3 = none := by
        rw [otTaxonomy_congr db o3 o2 h3tax, hot2]
      have : resyncPhase34 db o3 = resyncPhase4 db o3 := by
        unfold resyncPhase34
        simp only [hot3]
      rw [this, ho3, hstep]
      exact resyncPhase4_idem db o2
    | some tx =>
      rcases hguard : (!tx.allowFreeText && !truthy o2.tagId) with _ | _
      · -- phase 3 does not fire; phase 4 stabilises itself
        have hstep : resyncPhase34 db o2 = resyncPhase4 db o2 := by
          unfold resyncPhase34
          simp only [hot2, hguard, Bool.false_eq_true, if_false]
        have hot3 : otTaxonomy db o3 = some tx := by
          rw [otTaxonomy_congr db o3 o2 h3tax, hot2]
        have h3tag : o3.tagId = o2.tagId := by
          rw [ho3, hstep]
          exact (resyncPhase4_frame db o2).2.2.2.2.1
        have hguard3 : (!tx.allowFreeText && !truthy o3.tagId) = false := by
          rw [h3tag]
          exact hguard
        have : resyncPhase34 db o3 = resyncPhase4 db o3 := by
          unfold resyncPhase34
          simp only [hot3, hguard3, Bool.false_eq_true, if_false]
        rw [this, ho3, hstep]
        exact resyncPhase4_idem db o2
      · -- phase 3 fires: closed taxonomy, no linked tag
        simp only [Bool.and_eq_true, Bool.not_eq_true'] at hguard
        have h2tagnone : o2.tagId = none :=
          not_truthy_eq_none o2.tagId (by rw [h2tag]; exact hTagOk) hguard.2
        have hval2 : otValue db o2 = o2.sValue := otValue_of_none db o2 h2tagnone
        cases hft : findTagByValue db tx (otValue db o2) with
        | none =>
          have hstep : resyncPhase34 db o2 = (o2, false) := by
            unfold resyncPhase34
            simp only [hot2, hguard.1, hguard.2, Bool.not_false, Bool.and_self, if_true]
            simp only [hft]
          have ho3o2 : o3 = o2 := by rw [ho3, hstep]
          rw [ho3o2, hstep]
        | some tg =>
          obtain ⟨htgmem, htgtax, htgval⟩ := findTagByValue_spec db tx _ tg hft
          have htg0 : tg.id ≠ 0 := hdbTag0 tg htgmem
          have hstep : resyncPhase34 db o2 = ({o2 with tagId := some tg.id}, true) := by
            unfold resyncPhase34
            simp only [hot2, hguard.1, hguard.2, Bool.not_false, Bool.and_self, if_true]
            simp only [hft]
          have ho3eq : o3 = {o2 with tagId := some tg.id} := by rw [ho3, hstep]
          have hot3 : otTaxonomy db o3 = some tx := by
            rw [otTaxonomy_congr db o3 o2 (by rw [ho3eq]), hot2]
          have hguard3 : (!tx.allowFreeText && !truthy o3.tagId) = false := by
            rw [ho3eq]
            simp [truthy, htg0]
          have hphase : resyncPhase34 db o3 = resyncPhase4 db o3 := by
            unfold resyncPhase34
            simp only [hot3, hguard3, Bool.false_eq_true, if_false]
          rw [hphase]
          apply resyncPhase4_eq_self
          intro tg2 htg2
          have : otTag db o3 = some tg := by
            rw [ho3eq]
            unfold otTag
            simp only [htg0, if_neg]
            simp [htg0, findTag_self db tg htgmem hTagNd]
          rw [this] at htg2
          obtain rfl : tg = tg2 := by simpa using htg2
          rw [ho3eq]
          show o2.sValue = tg.value
          rw [htgval, hval2]
  show resync db o3 = (o3, false)
  unfold resync
  rw [hA]
  simp only
  rw [hB]
  simp only
  rw [hC]
  rfl

/-- **C3 counterexample**: the claim asserts a second `resync` with no
intervening state change always reports "no change" (returns false).  It
fails for an object tag whose linked tag itself has a null taxonomy: each
run re-executes `self.taxonomy_id = self.tag.taxonomy_id` (assigning null
over null) and unconditionally sets `changed = True`, so *every* run
returns true while never altering a field. -/
theorem resync_idempotence_counterexample :
    let db : DB :=
      { taxonomies := [],
        tags := [{ id := 1, taxonomyId := none, parentId := none, value := "v",
                   externalId := none }],
        objectTags := [], instances := [], nextTagId := 2, nextObjectTagId := 1 }
    let ot : ObjectTag :=
      { id := 1, objectId := "o", objectType := "", taxonomyId := none,
        tagId := some 1, sName := "n", sValue := "v" }
    (resync db ot).1 = ot ∧
    (resync db ot).2 = true ∧
    (resync db (resync db ot).1).2 = true := by
  refine ⟨by decide, by decide, by decide⟩

/-- **C3 (amended)**: running `resync` twice in a row with no intervening
change of any Taxonomy/Tag/ObjectTag state leaves every field unchanged on
the second run *and* reports "no change" (returns false) — provided the
object tag is not in the degenerate state of having no taxonomy link while
its linked tag also carries no (truthy) taxonomy (the `hAdopt` hypothesis;
in that state the second run still changes no field but keeps returning
true, see the counterexample).  The other hypotheses are store
well-formedness: primary keys are non-zero and unique.  This covers object
tags referencing since-deleted taxonomies/tags (`SET_NULL` leaves both
links null and `hAdopt` holds vacuously): they simply remain unlinked. -/
theorem resync_idempotent (db : DB) (ot : ObjectTag)
    (hdbTag0 : ∀ t ∈ db.tags, t.id ≠ 0)
    (hdbTax0 : ∀ tx ∈ db.taxonomies, tx.id ≠ 0)
    (hTagNd : (db.tags.map Tag.id).Nodup)
    (hot0a : ot.taxonomyId ≠ some 0)
    (hot0b : ot.tagId ≠ some 0)
    (hAdopt : truthy ot.taxonomyId = false → truthy ot.tagId = true →
      truthy ((otTag db ot).bind Tag.taxonomyId) = true) :
    resync db (resync db ot).1 = ((resync db ot).1, false) := by
  rcases htr : truthy ot.taxonomyId with _ | _
  · rcases htg : truthy ot.tagId with _ | _
    · -- both links falsy: relink search
      have hTax : ot.taxonomyId = none := not_truthy_eq_none _ hot0a htr
      have hTag : ot.tagId = none := not_truthy_eq_none _ hot0b htg
      rcases relinkLoop_result db ot hTax hTag (resyncCandidates db ot) with
        hfail | ⟨tx, hmem, hacc, heq⟩
      · have hp1 : resyncPhase1 db ot = (ot, false) := by
          unfold resyncPhase1
          simp only [htr, htg, Bool.false_eq_true, if_false]
          exact hfail
        have hp2 : resyncPhase2 db ot = (ot, false) := by
          unfold resyncPhase2
          simp only [htr, Bool.false_eq_true, if_false]
        have hp34 : resyncPhase34 db ot = (ot, false) := by
          unfold resyncPhase34
          simp only [otTaxonomy_of_not_truthy db ot htr]
          unfold resyncPhase4 otTag
          rw [hTag]
        have hrun : resync db ot = (ot, false) := by
          unfold resync
          rw [hp1]
          simp only
          rw [hp2]
          simp only
          rw [hp34]
          rfl
        rw [hrun]
        exact hrun
      · have hp1 : resyncPhase1 db ot = (relinkCandidateOt db ot tx, true) := by
          unfold resyncPhase1
          simp only [htr, htg, Bool.false_eq_true, if_false]
          exact heq
        have hres : (resync db ot).1
            = (resyncPhase34 db (resyncPhase2 db (relinkCandidateOt db ot tx)).1).1 := by
          unfold resync
          rw [hp1]
        have htxmem : tx ∈ db.taxonomies := resyncCandidates_mem db ot tx hmem
        have htx0 : tx.id ≠ 0 := hdbTax0 tx htxmem
        have hcandtr : truthy (relinkCandidateOt db ot tx).taxonomyId = true := by
          simp [relinkCandidateOt, truthy, htx0]
        have hcandtag : (relinkCandidateOt db ot tx).tagId ≠ some 0 := by
          unfold relinkCandidateOt
          simp only
          cases hf : findTagByValue db tx (otValue db ot) with
          | none => simp
          | some tg =>
            have hmemtg := (findTagByValue_spec db tx _ tg hf).1
            have h0 := hdbTag0 tg hmemtg
            simp [h0]
        rw [hres]
        exact resync_phases_stable db _ hdbTag0 hTagNd hcandtr hcandtag
    · -- no taxonomy link, tag link truthy: adopt the tag's taxonomy
      have hp1 : resyncPhase1 db ot
          = ({ot with taxonomyId := (otTag db ot).bind Tag.taxonomyId}, true) := by
        unfold resyncPhase1
        simp only [htr, htg, Bool.false_eq_true, if_false, if_true]
      have ho1tr : truthy ({ot with taxonomyId := (otTag db ot).bind Tag.taxonomyId} :
          ObjectTag).taxonomyId = true := hAdopt htr htg
      have ho1tag : ({ot with taxonomyId := (otTag db ot).bind Tag.taxonomyId} :
          ObjectTag).tagId ≠ some 0 := hot0b
      have hres : (resync db ot).1 = (resyncPhase34 db (resyncPhase2 db
          {ot with taxonomyId := (otTag db ot).bind Tag.taxonomyId}).1).1 := by
        unfold resync
        rw [hp1]
      rw [hres]
      exact resync_phases_stable db _ hdbTag0 hTagNd ho1tr ho1tag
  · -- taxonomy link truthy: step 1 is skipped in both runs
    have hp1 : resyncPhase1 db ot = (ot, false) := resyncPhase1_of_truthy db ot htr
    have hres : (resync db ot).1 = (resyncPhase34 db (resyncPhase2 db ot).1).1 := by
      unfold resync
      rw [hp1]
    rw [hres]
    exact resync_phases_stable db ot hdbTag0 hTagNd htr hot0b

/-- Concrete instantiation of `resync_idempotent`: an orphaned object tag
relinks on the first run and the second run reports no change. -/
theorem resync_idempotent_witness :
    let tClosed : Taxonomy :=
      { id := 2, name := "N", enabled := true, required := false,
        allowMultiple := false, allowFreeText := false, systemDefined := false,
        variant := Variant.base }
    let tFree : Taxonomy :=
      { id := 1, name := "N", enabled := true, required := false,
        allowMultiple := false, allowFreeText := true, systemDefined := false,
        variant := Variant.base }
    let db : DB :=
      { taxonomies := [tFree, tClosed],
        tags := [{ id := 1, taxonomyId := some 2, parentId := none, value := "v",
                   externalId := none }],
        objectTags := [], instances := [], nextTagId := 2, nextObjectTagId := 1 }
    let ot : ObjectTag :=
      { id := 5, objectId := "o", objectType := "", taxonomyId := none, tagId := none,
        sName := "N", sValue := "v" }
    resync db (resync db ot).1 = ((resync db ot).1, false) := by
  intro tClosed tFree db ot
  exact resync_idempotent db ot (by decide) (by decide) (by decide) (by decide)
    (by decide) (by intro h1 h2; simp [truthy] at h2)

theorem tagsAtLevel_mem (db : DB) (tx : Taxonomy) (parents : Option (List Tag))
    (t : Tag) (h : t ∈ tagsAtLevel db tx parents) :
    t ∈ db.tags ∧ t.taxonomyId = some tx.id ∧
    (parents = none → t.parentId = none) ∧
    (∀ ps, parents = some ps → ∃ q ∈ ps, t.parentId = some q.id) := by
  unfold tagsAtLevel at h
  have h2 := (List.perm_insertionSort (tagLe db) _).mem_iff.mp h
  cases parents with
  | none =>
    simp only [List.mem_filter] at h2
    refine ⟨h2.1.1, by simpa using h2.1.2, fun _ => by simpa using h2.2, ?_⟩
    intro ps hps
    cases hps
  | some ps =>
    simp only [List.mem_filter] at h2
    refine ⟨h2.1.1, by simpa using h2.1.2, ?_, ?_⟩
    · intro hc
      cases hc
    · intro ps2 hps2
      obtain rfl : ps = ps2 := by injection hps2
      have h3 := h2.2
      simp only [List.any_eq_true, beq_iff_eq] at h3
      obtain ⟨q, hq, he⟩ := h3
      exact ⟨q, hq, he⟩

theorem getTagsLevelsAux_mem (db : DB) (tx : Taxonomy) :
    ∀ (fuel depth : Nat) (parents : Option (List Tag)),
      ∀ L ∈ getTagsLevelsAux db tx fuel depth parents, ∀ p ∈ L,
        p.1 ∈ db.tags ∧ p.1.taxonomyId = some tx.id ∧
        depth ≤ p.2 ∧ p.2 < depth + fuel := by
  intro fuel
  induction fuel with
  | zero => intro depth parents L hL; simp [getTagsLevelsAux] at hL
  | succ n ih =>
    intro depth parents L hL p hp
    simp only [getTagsLevelsAux] at hL
    split at hL
    · simp at hL
    · rcases List.mem_cons.mp hL with rfl | htail
      · obtain ⟨t, ht, rfl⟩ := List.mem_map.mp hp
        have := tagsAtLevel_mem db tx parents t ht
        exact ⟨this.1, this.2.1, Nat.le_refl _, by omega⟩
      · have := ih (depth + 1) _ L htail p hp
        exact ⟨this.1, this.2.1, by omega, by omega⟩

theorem getTagsLevelsAux_flatten_mem (db : DB) (tx : Taxonomy)
    (fuel depth : Nat) (parents : Option (List Tag)) (p : Tag × Nat)
    (hp : p ∈ (getTagsLevelsAux db tx fuel depth parents).flatten) :
    p.1 ∈ db.tags ∧ p.1.taxonomyId = some tx.id ∧ depth ≤ p.2 ∧ p.2 < depth + fuel := by
  obtain ⟨L, hL, hpL⟩ := List.mem_flatten.mp hp
  exact getTagsLevelsAux_mem db tx fuel depth parents L hL p hpL

theorem getTagsLevelsAux_first (db : DB) (tx : Taxonomy) :
    ∀ (fuel depth : Nat) (parents : Option (List Tag)) (p : Tag × Nat),
      p ∈ (getTagsLevelsAux db tx fuel depth parents).flatten → p.2 = depth →
      p.1 ∈ tagsAtLevel db tx parents := by
  intro fuel
  induction fuel with
  | zero => intro depth parents p hp; simp [getTagsLevelsAux] at hp
  | succ n ih =>
    intro depth parents p hp hd
    simp only [getTagsLevelsAux] at hp
    split at hp
    · simp at hp
    · simp only [List.flatten_cons, List.mem_append] at hp
      rcases hp with hfirst | htail
      · obtain ⟨t, ht, rfl⟩ := List.mem_map.mp hfirst
        exact ht
      · have := getTagsLevelsAux_flatten_mem db tx n (depth + 1) _ p htail
        omega

theorem getTagsLevelsAux_parent (db : DB) (tx : Taxonomy) :
    ∀ (fuel depth : Nat) (parents : Option (List Tag)) (p : Tag × Nat),
      p ∈ (getTagsLevelsAux db tx fuel depth parents).flatten → depth < p.2 →
      ∃ q ∈ (getTagsLevelsAux db tx fuel depth parents).flatten,
        p.1.parentId = some q.1.id ∧ q.2 + 1 = p.2 := by
  intro fuel
  induction fuel with
  | zero => intro depth parents p hp; simp [getTagsLevelsAux] at hp
  | succ n ih =>
    intro depth parents p hp hd
    rcases hemp : (tagsAtLevel db tx parents).isEmpty with _ | _
    · have hstep : getTagsLevelsAux db tx (n + 1) depth parents
          = ((tagsAtLevel db tx parents).map (fun t => (t, depth)))
            :: getTagsLevelsAux db tx n (depth + 1) (some (tagsAtLevel db tx parents)) := by
        simp only [getTagsLevelsAux]
        rw [hemp]
        simp
      rw [hstep] at hp ⊢
      simp only [List.flatten_cons, List.mem_append] at hp
      rcases hp with hfirst | htail
      · obtain ⟨t, _, rfl⟩ := List.mem_map.mp hfirst
        omega
      · by_cases hdeep : depth + 1 < p.2
        · obtain ⟨q, hq, hqpar, hqd⟩ := ih (depth + 1) _ p htail hdeep
          refine ⟨q, ?_, hqpar, hqd⟩
          simp only [List.flatten_cons, List.mem_append]
          right
          exact hq
        · have hpd : p.2 = depth + 1 := by omega
          have hfin := getTagsLevelsAux_first db tx n (depth + 1) _ p htail hpd
          have hmem := tagsAtLevel_mem db tx _ p.1 hfin
          obtain ⟨q, hq, hqe⟩ := hmem.2.2.2 _ rfl
          refine ⟨(q, depth), ?_, hqe, by omega⟩
          simp only [List.flatten_cons, List.mem_append]
          left
          exact List.mem_map.mpr ⟨q, hq, rfl⟩
    · simp only [getTagsLevelsAux] at hp
      rw [hemp] at hp
      simp at hp

theorem pairwise_of_total {α : Type} (R : α → α → Prop) (h : ∀ a b, R a b) :
    ∀ l : List α, l.Pairwise R := by
  intro l
  induction l with
  | nil => exact List.Pairwise.nil
  | cons x xs ih => exact List.Pairwise.cons (fun y _ => h x y) ih

theorem getTagsLevelsAux_pairwise (db : DB) (tx : Taxonomy) :
    ∀ (fuel depth : Nat) (parents : Option (List Tag)),
      ((getTagsLevelsAux db tx fuel depth parents).flatten).Pairwise
        (fun a b => a.2 ≤ b.2) := by
  intro fuel
  induction fuel with
  | zero => intro depth parents; simp [getTagsLevelsAux]
  | succ n ih =>
    intro depth parents
    simp only [getTagsLevelsAux]
    split
    · simp
    · simp only [List.flatten_cons]
      refine List.pairwise_append.mpr ⟨?_, ih (depth + 1) _, ?_⟩
      · exact List.pairwise_map.mpr (pairwise_of_total _ (fun a b => Nat.le_refl depth) _)
      · intro x hx y hy
        obtain ⟨t, _, rfl⟩ := List.mem_map.mp hx
        have := getTagsLevelsAux_flatten_mem db tx n (depth + 1) _ y hy
        simp only
        omega

theorem getTagsLevelsAux_levels (db : DB) (tx : Taxonomy) :
    ∀ (fuel depth : Nat) (parents : Option (List Tag)),
      (∀ L ∈ getTagsLevelsAux db tx fuel depth parents,
        List.Sorted (tagLe db) (L.map Prod.fst) ∧ L ≠ []) ∧
      (getTagsLevelsAux db tx fuel depth parents).length ≤ fuel := by
  intro fuel
  induction fuel with
  | zero => intro depth parents; simp [getTagsLevelsAux]
  | succ n ih =>
    intro depth parents
    simp only [getTagsLevelsAux]
    split
    · simp
    · constructor
      · intro L hL
        rcases List.mem_cons.mp hL with rfl | htail
        · constructor
          · have hmm : (List.map (fun t => (t, depth)) (tagsAtLevel db tx parents)).map Prod.fst
                = tagsAtLevel db tx parents := by
              simp only [List.map_map]
              exact list_map_eq_self _ _ (fun x _ => rfl)
            rw [hmm]
            unfold tagsAtLevel
            exact List.sorted_insertionSort _ _
          · intro hc
            rename_i hne
            apply hne
            rw [List.map_eq_nil_iff.mp hc]
            rfl
        · exact (ih (depth + 1) _).1 L htail
      · have := (ih (depth + 1) (some (tagsAtLevel db tx parents))).2
        simp only [List.length_cons]
        omega

theorem parent_appears_before (l : List (Tag × Nat))
    (hpw : l.Pairwise (fun a b => a.2 ≤ b.2))
    (hpar : ∀ p ∈ l, 0 < p.2 → ∃ q ∈ l, p.1.parentId = some q.1.id ∧ q.2 + 1 = p.2) :
    ∀ (j : Fin l.length), 0 < (l.get j).2 →
      ∃ i : Fin l.length, (i : Nat) < (j : Nat) ∧
        (l.get j).1.parentId = some ((l.get i).1.id) := by
  intro j hj
  obtain ⟨q, hqmem, hqpar, hqd⟩ := hpar (l.get j) (List.get_mem l j.1 j.2) hj
  obtain ⟨i, rfl⟩ := List.mem_iff_get.mp hqmem
  rcases Nat.lt_trichotomy (i : Nat) (j : Nat) with hlt | heq | hgt
  · exact ⟨i, hlt, hqpar⟩
  · exfalso
    have : i = j := Fin.ext heq
    subst this
    omega
  · exfalso
    have := List.pairwise_iff_get.mp hpw j i hgt
    simp only at this
    omega

/-- **C8**: `get_tags` returns `[]` for free-text taxonomies; otherwise it
returns the taxonomy's tags in breadth-first level order: every returned
tag is a tag of the taxonomy annotated with its depth (< 3), depth is
non-decreasing along the returned order, depth-0 entries are exactly
roots, every deeper entry's parent appears in the result one level up —
and strictly earlier in the returned order — each level is sorted by the
`(parent value, own value, id)` key, and traversal stops at an empty level
or after `TAXONOMY_MAX_DEPTH = 3` levels (no level is empty, at most 3
levels). -/
theorem getTags_spec (db : DB) (tx : Taxonomy) :
    (tx.allowFreeText = true → getTags db tx = []) ∧
    (∀ p ∈ getTags db tx,
      p.1 ∈ db.tags ∧ p.1.taxonomyId = some tx.id ∧ p.2 < TAXONOMY_MAX_DEPTH) ∧
    (getTags db tx).Pairwise (fun a b => a.2 ≤ b.2) ∧
    (∀ p ∈ getTags db tx, p.2 = 0 → p.1.parentId = none) ∧
    (∀ p ∈ getTags db tx, 0 < p.2 →
      ∃ q ∈ getTags db tx, p.1.parentId = some q.1.id ∧ q.2 + 1 = p.2) ∧
    (∀ j : Fin (getTags db tx).length, 0 < ((getTags db tx).get j).2 →
      ∃ i : Fin (getTags db tx).length, (i : Nat) < (j : Nat) ∧
        ((getTags db tx).get j).1.parentId = some (((getTags db tx).get i).1.id)) ∧
    (∀ L ∈ getTagsLevels db tx, List.Sorted (tagLe db) (L.map Prod.fst) ∧ L ≠ []) ∧
    (getTagsLevels db tx).length ≤ TAXONOMY_MAX_DEPTH := by
  by_cases hft : tx.allowFreeText = true
  · have hlev : getTagsLevels db tx = [] := by
      unfold getTagsLevels
      simp [hft]
    have htags : getTags db tx = [] := by
      unfold getTags
      rw [hlev]
      rfl
    rw [htags, hlev]
    refine ⟨fun _ => rfl, by simp, by simp, by simp, by simp, ?_, by simp, by simp⟩
    intro j
    exact absurd j.2 (by simp)
  · have hlev : getTagsLevels db tx
        = getTagsLevelsAux db tx TAXONOMY_MAX_DEPTH 0 none := by
      unfold getTagsLevels
      simp [hft]
    have htags : getTags db tx
        = (getTagsLevelsAux db tx TAXONOMY_MAX_DEPTH 0 none).flatten := by
      unfold getTags
      rw [hlev]
    have hpar : ∀ p ∈ getTags db tx, 0 < p.2 →
        ∃ q ∈ getTags db tx, p.1.parentId = some q.1.id ∧ q.2 + 1 = p.2 := by
      intro p hp h0
      rw [htags] at hp ⊢
      exact getTagsLevelsAux_parent db tx TAXONOMY_MAX_DEPTH 0 none p hp h0
    have hpw : (getTags db tx).Pairwise (fun a b => a.2 ≤ b.2) := by
      rw [htags]
      exact getTagsLevelsAux_pairwise db tx TAXONOMY_MAX_DEPTH 0 none
    refine ⟨fun hc => absurd hc hft, ?_, hpw, ?_, hpar, ?_, ?_, ?_⟩
    · intro p hp
      rw [htags] at hp
      have := getTagsLevelsAux_flatten_mem db tx TAXONOMY_MAX_DEPTH 0 none p hp
      exact ⟨this.1, this.2.1, by omega⟩
    · intro p hp h0
      rw [htags] at hp
      have hfirst := getTagsLevelsAux_first db tx TAXONOMY_MAX_DEPTH 0 none p hp h0
      exact (tagsAtLevel_mem db tx none p.1 hfirst).2.2.1 rfl
    · exact parent_appears_before (getTags db tx) hpw hpar
    · intro L hL
      rw [hlev] at hL
      exact (getTagsLevelsAux_levels db tx TAXONOMY_MAX_DEPTH 0 none).1 L hL
    · rw [hlev]
      exact (getTagsLevelsAux_levels db tx TAXONOMY_MAX_DEPTH 0 none).2

/-- Concrete instantiation of `getTags_spec`: a two-level tree in
deterministic order, with the too-deep fourth level cut off. -/
theorem getTags_spec_witness :
    let tx : Taxonomy :=
      { id := 1, name := "S", enabled := true, required := false,
        allowMultiple := true, allowFreeText := false, systemDefined := false,
        variant := Variant.base }
    let tFree : Taxonomy :=
      { id := 1, name := "S", enabled := true, required := false,
        allowMultiple := true, allowFreeText := true, systemDefined := false,
        variant := Variant.base }
    let db : DB :=
      { taxonomies := [tx],
        tags := [{ id := 1, taxonomyId := some 1, parentId := none, value := "b",
                   externalId := none },
                 { id := 2, taxonomyId := some 1, parentId := none, value := "a",
                   externalId := none },
                 { id := 3, taxonomyId := some 1, parentId := some 1, value := "z",
                   externalId := none }],
        objectTags := [], instances := [], nextTagId := 4, nextObjectTagId := 1 }
    getTags db tFree = [] ∧
    (getTags db tx).map (fun p => (p.1.id, p.2)) = [(2, 0), (1, 0), (3, 1)] ∧
    (getTags db tx).Pairwise (fun a b => a.2 ≤ b.2) := by
  intro tx tFree db
  refine ⟨(getTags_spec db tFree).1 rfl, by decide, (getTags_spec db tx).2.2.1⟩

